import Mathlib

/-!
Shallow embedding of the change-detection core of `uscis_monitor.py`
(class `USCISMonitor`): the normalizer `filter_relevant_data`, the
fingerprinter `calculate_hash` (JSON serialization with sorted keys
followed by an MD5 digest), the differ `detect_changes`, and the
per-cycle orchestrator `check_cases`.

JSON records are modelled by the inductive type `JVal`; Python dicts are
association lists of string keys (a Python dict never holds a duplicate
key, which the well-formedness predicate `wfj` captures where needed).
Fallible Python operations (`d[k]`, `.get` on a non-dict, `len`, `in`,
iteration) are modelled in the `Except String` monad, mirroring the
exceptions CPython raises on the same inputs.
-/

/-- A JSON value as held in a Python object tree: `null`/`None`,
booleans, integers, strings, lists and dicts (dicts keep insertion
order, as Python dicts do). -/
inductive JVal where
  | null : JVal
  | bool : Bool → JVal
  | num : Int → JVal
  | str : String → JVal
  | arr : List JVal → JVal
  | obj : List (String × JVal) → JVal
deriving Repr

/-- Python dict lookup `d.get(k)` on an association list: first entry
with the given key. -/
def alookup {β : Type} : List (String × β) → String → Option β
  | [], _ => none
  | (k, v) :: r, key => if k = key then some v else alookup r key

/-- Python dict assignment `d[k] = v`: replace the value at the first
occurrence of the key, or append the binding at the end (new keys go to
the end of the insertion order). -/
def setKey {β : Type} : List (String × β) → String → β → List (String × β)
  | [], key, v => [(key, v)]
  | (k, w) :: r, key, v => if k = key then (key, v) :: r else (k, w) :: setKey r key v

/-- Python `d.pop(k, None)`: drop the entry with the given key,
preserving the order of the remaining entries. -/
def dictPop : List (String × JVal) → String → List (String × JVal)
  | [], _ => []
  | (k', v) :: r, k => if k' = k then dictPop r k else (k', v) :: dictPop r k

/-- Python truthiness of a JSON value: `None`, `False`, `0`, `""`, `[]`
and an empty dict are falsy, everything else is truthy. -/
def pyTruthy : JVal → Bool
  | .null => false
  | .bool b => b
  | .num n => !(n = 0 : Bool)
  | .str s => !s.isEmpty
  | .arr xs => !xs.isEmpty
  | .obj kvs => !kvs.isEmpty

mutual
/-- Structural equality test on `JVal` (used through `canon`, see
`pyEqB`, to model Python `==`). -/
def jeqb : JVal → JVal → Bool
  | .null, .null => true
  | .bool a, .bool b => a == b
  | .num a, .num b => a == b
  | .str a, .str b => a == b
  | .arr a, .arr b => jeqbList a b
  | .obj a, .obj b => jeqbPairs a b
  | _, _ => false

def jeqbList : List JVal → List JVal → Bool
  | [], [] => true
  | x :: xs, y :: ys => jeqb x y && jeqbList xs ys
  | _, _ => false

def jeqbPairs : List (String × JVal) → List (String × JVal) → Bool
  | [], [] => true
  | (k, v) :: xs, (l, w) :: ys => k == l && jeqb v w && jeqbPairs xs ys
  | _, _ => false
end

mutual
/-- Recursively sort every dict's entry list by key (stably).  Two
well-formed values are equal as Python objects (Python `==`) exactly
when their canonical forms coincide, since a Python dict compares as a
key-value mapping, ignoring insertion order. -/
def canon : JVal → JVal
  | .null => .null
  | .bool b => .bool b
  | .num n => .num n
  | .str s => .str s
  | .arr xs => .arr (canonList xs)
  | .obj kvs => .obj (List.insertionSort (fun p q : String × JVal => p.1 ≤ q.1) (canonPairs kvs))

def canonList : List JVal → List JVal
  | [] => []
  | x :: r => canon x :: canonList r

def canonPairs : List (String × JVal) → List (String × JVal)
  | [] => []
  | (k, v) :: r => (k, canon v) :: canonPairs r
end

/-- Python `==` on JSON object trees: dicts compare as mappings, lists
pointwise, leaves by value. -/
def pyEqB (a b : JVal) : Bool := jeqb (canon a) (canon b)

/-- Python `in` for a string key: key membership for a dict, element
equality for a list, substring search for a string; a `TypeError` for
the remaining types. -/
def pyContains (v : JVal) (k : String) : Except String Bool :=
  match v with
  | .obj kvs => .ok (alookup kvs k).isSome
  | .arr xs => .ok (xs.any (fun x => pyEqB x (.str k)))
  | .str s => .ok (List.range (s.data.length + 1) |>.any (fun i => k.data.isPrefixOf (s.data.drop i)))
  | _ => .error "TypeError: argument of type is not iterable"

/-- Python `v[k]` for a string key: dict indexing (a `KeyError` when
absent), a `TypeError` on any other type. -/
def pyIndex (v : JVal) (k : String) : Except String JVal :=
  match v with
  | .obj kvs =>
      match alookup kvs k with
      | some x => .ok x
      | none => .error ("KeyError: " ++ k)
  | _ => .error ("TypeError: indices must be integers, not str (" ++ k ++ ")")

/-- Python `len(v)`: defined for lists, strings and dicts, a
`TypeError` otherwise. -/
def pyLen (v : JVal) : Except String Nat :=
  match v with
  | .arr xs => .ok xs.length
  | .str s => .ok s.length
  | .obj kvs => .ok kvs.length
  | _ => .error "TypeError: object has no len"

/-- Python `v[:n]` followed by iteration: the first `n` elements of a
list, the first `n` characters of a string (each a one-character
string), a `TypeError` otherwise. -/
def pySliceIter (v : JVal) (n : Nat) : Except String (List JVal) :=
  match v with
  | .arr xs => .ok (xs.take n)
  | .str s => .ok ((s.data.take n).map (fun c => .str (String.mk [c])))
  | _ => .error "TypeError: unhashable type: slice"

/-- Python iteration `for x in v`: list elements, characters of a
string, keys of a dict; a `TypeError` otherwise. -/
def pyIterItems (v : JVal) : Except String (List JVal) :=
  match v with
  | .arr xs => .ok xs
  | .str s => .ok (s.data.map (fun c => .str (String.mk [c])))
  | .obj kvs => .ok (kvs.map (fun p => .str p.1))
  | _ => .error "TypeError: object is not iterable"

mutual
/-- Python `str(v)` as used when a value is interpolated into an
f-string: `None`/`True`/`False`, decimal integers, the raw text of a
string, and the `repr` form for containers. -/
def pyStr : JVal → String
  | .null => "None"
  | .bool true => "True"
  | .bool false => "False"
  | .num n => toString n
  | .str s => s
  | .arr xs => "[" ++ String.intercalate ", " (pyReprList xs) ++ "]"
  | .obj kvs => "\x7b" ++ String.intercalate ", " (pyReprPairs kvs) ++ "\x7d"

/-- Python `repr(v)` (strings quoted), as `str` of a container shows
its elements. -/
def pyRepr : JVal → String
  | .null => "None"
  | .bool true => "True"
  | .bool false => "False"
  | .num n => toString n
  | .str s => "'" ++ s ++ "'"
  | .arr xs => "[" ++ String.intercalate ", " (pyReprList xs) ++ "]"
  | .obj kvs => "\x7b" ++ String.intercalate ", " (pyReprPairs kvs) ++ "\x7d"

def pyReprList : List JVal → List String
  | [] => []
  | x :: r => pyRepr x :: pyReprList r

def pyReprPairs : List (String × JVal) → List String
  | [] => []
  | (k, v) :: r => ("'" ++ k ++ "': " ++ pyRepr v) :: pyReprPairs r
end

/-- `str(d.get(k))` when the lookup may have returned `None`. -/
def pyStrOpt (o : Option JVal) : String := pyStr (o.getD .null)

/-- Python `==` where either side may be the `None` that `d.get(k)`
returns for an absent key (JSON `null` is the same Python `None`). -/
def jeqbOpt (a b : Option JVal) : Bool := pyEqB (a.getD .null) (b.getD .null)

/-- Hex digits `0123456789abcdef`. -/
def hexDigit (n : Nat) : Char :=
  "0123456789abcdef".data.getD n '0'

/-- Two lowercase hex digits of a byte. -/
def hexByte (b : Nat) : String := String.mk [hexDigit (b / 16 % 16), hexDigit (b % 16)]

/-- Four lowercase hex digits, `\uXXXX`-style payload. -/
def hex4 (n : Nat) : String :=
  String.mk [hexDigit (n / 4096 % 16), hexDigit (n / 256 % 16), hexDigit (n / 16 % 16), hexDigit (n % 16)]

/-- `json.dumps` escaping of one character with `ensure_ascii=True`:
the printable ASCII range stays, the two-character escapes cover the
JSON specials, everything else becomes `\uXXXX` (with surrogate pairs
above the BMP). -/
def jsonEscapeChar (c : Char) : String :=
  let n := c.toNat
  if c = '"' then "\\\""
  else if c = '\\' then "\\\\"
  else if n = 10 then "\\n"
  else if n = 13 then "\\r"
  else if n = 9 then "\\t"
  else if n = 8 then "\\b"
  else if n = 12 then "\\f"
  else if n < 32 then "\\u" ++ hex4 n
  else if n < 127 then String.mk [c]
  else if n < 65536 then "\\u" ++ hex4 n
  else "\\u" ++ hex4 (55296 + (n - 65536) / 1024) ++ "\\u" ++ hex4 (56320 + (n - 65536) % 1024)

/-- A JSON string literal as `json.dumps` renders it. -/
def jstr (s : String) : String :=
  "\"" ++ String.join (s.data.map jsonEscapeChar) ++ "\""

mutual
/-- `json.dumps(v, sort_keys=True)` with CPython's default separators
`", "` and `": "`: each dict is rendered over its sorted key list (for
a real Python dict, whose keys are distinct, this is exactly
`sorted(d.items())`). -/
def dumps : JVal → String
  | .null => "null"
  | .bool true => "true"
  | .bool false => "false"
  | .num n => toString n
  | .str s => jstr s
  | .arr xs => "[" ++ String.intercalate ", " (dumpsList xs) ++ "]"
  | .obj kvs =>
      "\x7b" ++ String.intercalate ", "
        ((List.insertionSort (fun a b : String => a ≤ b) (kvs.map Prod.fst)).map
          (fun k => jstr k ++ ": " ++ ((alookup (dumpsEntries kvs) k).getD "null")))
        ++ "\x7d"

def dumpsList : List JVal → List String
  | [] => []
  | x :: r => dumps x :: dumpsList r

def dumpsEntries : List (String × JVal) → List (String × String)
  | [] => []
  | (k, v) :: r => (k, dumps v) :: dumpsEntries r
end

/-- UTF-8 encoding of one scalar value. -/
def utf8Char (n : Nat) : List Nat :=
  if n < 128 then [n]
  else if n < 2048 then [192 + n / 64, 128 + n % 64]
  else if n < 65536 then [224 + n / 4096, 128 + n / 64 % 64, 128 + n % 64]
  else [240 + n / 262144, 128 + n / 4096 % 64, 128 + n / 64 % 64, 128 + n % 64]

/-- `s.encode()`: the UTF-8 bytes of a string. -/
def utf8Bytes (s : String) : List Nat :=
  s.data.foldr (fun c acc => utf8Char c.toNat ++ acc) []

/-- Reduce to a 32-bit machine word. -/
def w32 (n : Nat) : Nat := n % 4294967296

/-- 32-bit left rotation (for `x < 2^32`). -/
def rotl (x s : Nat) : Nat := w32 ((x % 2 ^ (32 - s)) * 2 ^ s + x / 2 ^ (32 - s))

/-- 32-bit complement (for `x < 2^32`). -/
def notW (x : Nat) : Nat := 4294967295 - w32 x

/-- The 64 MD5 sine-table constants. -/
def md5K : List Nat :=
  [0xd76aa478, 0xe8c7b756, 0x242070db, 0xc1bdceee,
   0xf57c0faf, 0x4787c62a, 0xa8304613, 0xfd469501,
   0x698098d8, 0x8b44f7af, 0xffff5bb1, 0x895cd7be,
   0x6b901122, 0xfd987193, 0xa679438e, 0x49b40821,
   0xf61e2562, 0xc040b340, 0x265e5a51, 0xe9b6c7aa,
   0xd62f105d, 0x02441453, 0xd8a1e681, 0xe7d3fbc8,
   0x21e1cde6, 0xc33707d6, 0xf4d50d87, 0x455a14ed,
   0xa9e3e905, 0xfcefa3f8, 0x676f02d9, 0x8d2a4c8a,
   0xfffa3942, 0x8771f681, 0x6d9d6122, 0xfde5380c,
   0xa4beea44, 0x4bdecfa9, 0xf6bb4b60, 0xbebfbc70,
   0x289b7ec6, 0xeaa127fa, 0xd4ef3085, 0x04881d05,
   0xd9d4d039, 0xe6db99e5, 0x1fa27cf8, 0xc4ac5665,
   0xf4292244, 0x432aff97, 0xab9423a7, 0xfc93a039,
   0x655b59c3, 0x8f0ccc92, 0xffeff47d, 0x85845dd1,
   0x6fa87e4f, 0xfe2ce6e0, 0xa3014314, 0x4e0811a1,
   0xf7537e82, 0xbd3af235, 0x2ad7d2bb, 0xeb86d391]

/-- The 64 MD5 per-round rotation amounts. -/
def md5S : List Nat :=
  [7, 12, 17, 22, 7, 12, 17, 22, 7, 12, 17, 22, 7, 12, 17, 22,
   5, 9, 14, 20, 5, 9, 14, 20, 5, 9, 14, 20, 5, 9, 14, 20,
   4, 11, 16, 23, 4, 11, 16, 23, 4, 11, 16, 23, 4, 11, 16, 23,
   6, 10, 15, 21, 6, 10, 15, 21, 6, 10, 15, 21, 6, 10, 15, 21]

/-- The MD5 round function for round `i`. -/
def md5F (i b c d : Nat) : Nat :=
  if i < 16 then (b &&& c) ||| (notW b &&& d)
  else if i < 32 then (d &&& b) ||| (notW d &&& c)
  else if i < 48 then b ^^^ c ^^^ d
  else c ^^^ (b ||| notW d)

/-- The MD5 message-word index for round `i`. -/
def md5G (i : Nat) : Nat :=
  if i < 16 then i
  else if i < 32 then (5 * i + 1) % 16
  else if i < 48 then (3 * i + 5) % 16
  else (7 * i) % 16

/-- One MD5 round on the state `(a, b, c, d)`. -/
def md5Step (M : List Nat) (st : Nat × Nat × Nat × Nat) (i : Nat) : Nat × Nat × Nat × Nat :=
  let f := w32 (md5F i st.2.1 st.2.2.1 st.2.2.2 + st.1 + md5K.getD i 0 + M.getD (md5G i) 0)
  (st.2.2.2, w32 (st.2.1 + rotl f (md5S.getD i 0)), st.2.1, st.2.2.1)

/-- The 16 little-endian 32-bit words of a 64-byte block. -/
def chunkWords (bs : List Nat) : List Nat :=
  (List.range 16).map (fun j => ((bs.drop (4 * j)).take 4).foldr (fun b acc => b + 256 * acc) 0)

/-- Fold one 64-byte block into the MD5 state. -/
def md5Chunk (h : Nat × Nat × Nat × Nat) (bs : List Nat) : Nat × Nat × Nat × Nat :=
  let r := (List.range 64).foldl (md5Step (chunkWords bs)) h
  (w32 (h.1 + r.1), w32 (h.2.1 + r.2.1), w32 (h.2.2.1 + r.2.2.1), w32 (h.2.2.2 + r.2.2.2))

/-- Split into 64-byte blocks (structural recursion on a fuel bound so
that the definition reduces definitionally; the fuel `bs.length`
always suffices since every step consumes at least one byte). -/
def chunks64Go : Nat → List Nat → List (List Nat)
  | 0, _ => []
  | _, [] => []
  | fuel + 1, b :: rest => ((b :: rest).take 64) :: chunks64Go fuel ((b :: rest).drop 64)

/-- Split into 64-byte blocks. -/
def chunks64 (bs : List Nat) : List (List Nat) := chunks64Go bs.length bs

/-- MD5 padding: `0x80`, zeros to 56 mod 64, then the bit length as a
little-endian 64-bit quantity. -/
def md5Pad (msg : List Nat) : List Nat :=
  msg ++ [128] ++ List.replicate ((119 - msg.length % 64) % 64) 0
      ++ (List.range 8).map (fun i => 8 * msg.length / 2 ^ (8 * i) % 256)

/-- The four 32-bit words of the MD5 digest of a byte sequence. -/
def md5Words (msg : List Nat) : Nat × Nat × Nat × Nat :=
  (chunks64 (md5Pad msg)).foldl md5Chunk (0x67452301, 0xefcdab89, 0x98badcfe, 0x10325476)

/-- Little-endian bytes of a 32-bit word. -/
def leBytes4 (w : Nat) : List Nat := [w % 256, w / 256 % 256, w / 65536 % 256, w / 16777216 % 256]

/-- `hashlib.md5(msg).hexdigest()`: the 32-character lowercase hex
digest. -/
def md5hex (msg : List Nat) : String :=
  String.join (((leBytes4 (md5Words msg).1 ++ leBytes4 (md5Words msg).2.1
      ++ leBytes4 (md5Words msg).2.2.1 ++ leBytes4 (md5Words msg).2.2.2).map hexByte))

/-- The digest packed into a single natural number below `2^128` (the
hex digest is a function of this value). -/
def md5Nat (msg : List Nat) : Nat :=
  (md5Words msg).1 + 4294967296 * (md5Words msg).2.1
    + 4294967296 ^ 2 * (md5Words msg).2.2.1 + 4294967296 ^ 3 * (md5Words msg).2.2.2

/-- The event comprehension body of `filter_relevant_data`:
`{k: v for k, v in event.items() if k not in ['createdAtTimestamp',
'updatedAtTimestamp']}`; a non-dict event has no `.items()`. -/
def stripEntries : List (String × JVal) → List (String × JVal)
  | [] => []
  | (k, v) :: r =>
      if k = "createdAtTimestamp" ∨ k = "updatedAtTimestamp" then stripEntries r
      else (k, v) :: stripEntries r

def filterEvent (ev : JVal) : Except String JVal :=
  match ev with
  | .obj ekv => .ok (.obj (stripEntries ekv))
  | _ => .error "AttributeError: object has no attribute items"

/-- `USCISMonitor.filter_relevant_data`: return the input unchanged
when it has no `data` key; otherwise copy `data['data']`, pop the two
volatile timestamp keys, rebuild `data['events']` (when present) with
the same keys dropped from every event, and return a fresh
`{'data': ...}` record. -/
def filter_relevant_data (data : JVal) : Except String JVal :=
  match pyContains data "data" with
  | .error e => .error e
  | .ok false => .ok data
  | .ok true =>
    match pyIndex data "data" with
    | .error e => .error e
    | .ok dv =>
      match dv with
      | .obj dkvs =>
        let case_data := dictPop (dictPop dkvs "updatedAtTimestamp") "createdAtTimestamp"
        match alookup case_data "events" with
        | none => .ok (.obj [("data", .obj case_data)])
        | some ev =>
          match pyIterItems ev with
          | .error e => .error e
          | .ok items =>
            match items.mapM filterEvent with
            | .error e => .error e
            | .ok evs => .ok (.obj [("data", .obj (setKey case_data "events" (.arr evs)))])
      | .arr _ => .error "TypeError: pop expected at most 1 argument"
      | _ => .error "AttributeError: object has no attribute copy"

/-- `USCISMonitor.calculate_hash`: MD5 hex digest of the sorted-key
JSON serialization of the filtered record. -/
def calculate_hash (data : JVal) : Except String String :=
  (filter_relevant_data data).map (fun fd => md5hex (utf8Bytes (dumps fd)))

/-- The body of the event-detail loop of `detect_changes`:
`f"New event: {event.get('eventCode', 'Unknown')} on
{event.get('eventDateTime', 'Unknown date')}"`. -/
def event_detail (ev : JVal) : Except String String :=
  match ev with
  | .obj ekv => .ok ("New event: " ++ pyStr ((alookup ekv "eventCode").getD (.str "Unknown"))
      ++ " on " ++ pyStr ((alookup ekv "eventDateTime").getD (.str "Unknown date")))
  | _ => .error "AttributeError: object has no attribute get"

/-- `USCISMonitor.detect_changes`: `["Initial monitoring setup"]` when
the receipt number has no previous snapshot; otherwise index
`previous_states[receipt_number]['data']` and `current_data['data']`
and collect, in order, the `updatedAt` descriptor, the new-event count
and per-event descriptors (the first `N` entries of the current events
list), and the generic evidence-request and notice descriptors. -/
def detect_changes (previous_states : List (String × JVal)) (receipt_number : String)
    (current_data : JVal) : Except String (List String) :=
  match alookup previous_states receipt_number with
  | none => .ok ["Initial monitoring setup"]
  | some snap =>
    match pyIndex snap "data" with
    | .error e => .error e
    | .ok prev_data =>
    match pyIndex current_data "data" with
    | .error e => .error e
    | .ok curr_data =>
    match prev_data, curr_data with
    | .obj pkv, .obj ckv =>
      let upd := if jeqbOpt (alookup pkv "updatedAt") (alookup ckv "updatedAt") then []
        else ["Case updated: " ++ pyStrOpt (alookup ckv "updatedAt")]
      match pyLen ((alookup pkv "events").getD (.arr [])) with
      | .error e => .error e
      | .ok pn =>
      match pyLen ((alookup ckv "events").getD (.arr [])) with
      | .error e => .error e
      | .ok cn =>
      match (if pn < cn then
               match pySliceIter ((alookup ckv "events").getD (.arr [])) (cn - pn) with
               | .error e => .error e
               | .ok items =>
                 match items.mapM event_detail with
                 | .error e => .error e
                 | .ok msgs => .ok ((toString (cn - pn) ++ " new event(s) added") :: msgs)
             else .ok [] : Except String (List String)) with
      | .error e => .error e
      | .ok evMsgs =>
      match pyLen ((alookup pkv "evidenceRequests").getD (.arr [])) with
      | .error e => .error e
      | .ok pe =>
      match pyLen ((alookup ckv "evidenceRequests").getD (.arr [])) with
      | .error e => .error e
      | .ok ce =>
      let evid := if pe < ce then ["New evidence request received"] else []
      match pyLen ((alookup pkv "notices").getD (.arr [])) with
      | .error e => .error e
      | .ok pns =>
      match pyLen ((alookup ckv "notices").getD (.arr [])) with
      | .error e => .error e
      | .ok cns =>
      let noti := if pns < cns then ["New notice received"] else []
      .ok (upd ++ evMsgs ++ evid ++ noti)
    | _, _ => .error "AttributeError: object has no attribute get"

/-- One entry of `config['cases']`. -/
structure CaseCfg where
  receipt_number : String
  description : Option String
deriving Repr

/-- The snapshot dict `check_cases` stores for one case. -/
def snapshotObj (h : String) (d : JVal) (nowIso desc : String) : JVal :=
  .obj [("hash", .str h), ("data", d), ("last_checked", .str nowIso), ("description", .str desc)]

/-- Python `current_hash != previous_hash` where the previous hash is
the stored JSON value (or absent): a string only ever equals a string. -/
def hashSame (h : String) (prev : Option JVal) : Bool :=
  match prev with
  | some (.str s) => s == h
  | _ => false

/-- The notification title `f"USCIS Case Update: {description}"`. -/
def notifTitle (desc : String) : String := "USCIS Case Update: " ++ desc

/-- The notification body built from the change list. -/
def notifMessage (receipt : String) (changes : List String) : String :=
  "Case " ++ receipt ++ " has been updated:\n"
    ++ String.intercalate "\n" (changes.map (fun c => "• " ++ c))

/-- The loop body of `USCISMonitor.check_cases`, processing the
remaining cases while accumulating the new snapshot store and the
notifications sent so far.  A fetch failure (`None`) or a falsy fetched
record skips the case; any exception escaping the loop aborts the run
(no store is saved). -/
def check_cases_go (fetch : String → Option JVal) (prev : List (String × JVal)) (nowIso : String) :
    List CaseCfg → List (String × JVal) → List (String × String) →
    Except String (List (String × JVal) × List (String × String))
  | [], states, notifs => .ok (states, notifs)
  | c :: rest, states, notifs =>
    let r := c.receipt_number
    let desc := c.description.getD r
    match fetch r with
    | none => check_cases_go fetch prev nowIso rest states notifs
    | some cur =>
      if !pyTruthy cur then check_cases_go fetch prev nowIso rest states notifs
      else
        match calculate_hash cur with
        | .error e => .error e
        | .ok current_hash =>
          match (alookup prev r).getD (.obj []) with
          | .obj pSnap =>
            let previous_hash := alookup pSnap "hash"
            let states' := setKey states r (snapshotObj current_hash cur nowIso desc)
            if hashSame current_hash previous_hash then
              check_cases_go fetch prev nowIso rest states' notifs
            else
              match detect_changes prev r cur with
              | .error e => .error e
              | .ok changes =>
                if changes.isEmpty then check_cases_go fetch prev nowIso rest states' notifs
                else check_cases_go fetch prev nowIso rest states'
                  (notifs ++ [(notifTitle desc, notifMessage r changes)])
          | _ => .error "AttributeError: object has no attribute get"

/-- `USCISMonitor.check_cases`: walk the configured cases, skip fetch
failures, rebuild the snapshot store from scratch and return it
together with the notifications emitted; the caller persists the store.
`fetch` abstracts `get_case_data` (`None` models a request failure) and
`nowIso` abstracts `datetime.now().isoformat()`. -/
def check_cases (cases : List CaseCfg) (fetch : String → Option JVal)
    (prev : List (String × JVal)) (nowIso : String) :
    Except String (List (String × JVal) × List (String × String)) :=
  check_cases_go fetch prev nowIso cases [] []

/-- All keys of a list pairwise distinct (a Python dict never holds a
duplicate key). -/
def distinctKeys : List String → Bool
  | [] => true
  | k :: r => !(r.contains k) && distinctKeys r

mutual
/-- Well-formedness of a value as an image of a real Python object
tree: every dict in it has pairwise-distinct keys.  All values parsed
from JSON satisfy this. -/
def wfj : JVal → Bool
  | .null => true
  | .bool _ => true
  | .num _ => true
  | .str _ => true
  | .arr xs => wfjList xs
  | .obj kvs => distinctKeys (kvs.map Prod.fst) && wfjPairs kvs

def wfjList : List JVal → Bool
  | [] => true
  | x :: r => wfj x && wfjList r

def wfjPairs : List (String × JVal) → Bool
  | [] => true
  | (_, v) :: r => wfj v && wfjPairs r
end

mutual
/-- `KeyPerm a b`: the two values differ only in the ordering of the
entries of their dicts — identical leaves, lists related pointwise, and
each dict of `b` a permutation of the corresponding dict of `a` with
the same keys and `KeyPerm`-related values. -/
inductive KeyPerm : JVal → JVal → Prop where
  | null : KeyPerm .null .null
  | bool (b : Bool) : KeyPerm (.bool b) (.bool b)
  | num (n : Int) : KeyPerm (.num n) (.num n)
  | str (s : String) : KeyPerm (.str s) (.str s)
  | arr {xs ys : List JVal} : KeyPermList xs ys → KeyPerm (.arr xs) (.arr ys)
  | obj {a l b : List (String × JVal)} :
      KeyPermPairs a l → l.Perm b → KeyPerm (.obj a) (.obj b)

/-- Pointwise `KeyPerm` on lists. -/
inductive KeyPermList : List JVal → List JVal → Prop where
  | nil : KeyPermList [] []
  | cons {x y : JVal} {xs ys : List JVal} :
      KeyPerm x y → KeyPermList xs ys → KeyPermList (x :: xs) (y :: ys)

/-- Pointwise same-key, `KeyPerm`-valued relation on dict entry lists. -/
inductive KeyPermPairs : List (String × JVal) → List (String × JVal) → Prop where
  | nil : KeyPermPairs [] []
  | cons (k : String) {v w : JVal} {ps qs : List (String × JVal)} :
      KeyPerm v w → KeyPermPairs ps qs → KeyPermPairs ((k, v) :: ps) ((k, w) :: qs)
end

/-- An infinite family of well-formed raw records that pairwise differ
in their canonical form: the record `{"data": {"x": "aa…a"}}` with `n`
letters `a`. -/
def cRec (n : Nat) : JVal :=
  .obj [("data", .obj [("x", .str (String.mk (List.replicate n 'a')))])]

/-- Whether a fetch attempt produced a truthy record (`get_case_data`
returned data and `if not current_data` does not skip the case). -/
def fetchTruthy (fetch : String → Option JVal) (r : String) : Bool :=
  match fetch r with
  | none => false
  | some v => pyTruthy v

theorem alookup_dictPop_self (kvs : List (String × JVal)) (k : String) :
    alookup (dictPop kvs k) k = none := by
  induction kvs with
  | nil => rfl
  | cons p r ih =>
    obtain ⟨k', v⟩ := p
    by_cases hk : k' = k <;> simp [dictPop, alookup, hk, ih]

theorem alookup_dictPop_ne (kvs : List (String × JVal)) (k key : String) (h : ¬ key = k) :
    alookup (dictPop kvs k) key = alookup kvs key := by
  have h' : ¬ k = key := fun hc => h hc.symm
  induction kvs with
  | nil => rfl
  | cons p r ih =>
    obtain ⟨k', v⟩ := p
    by_cases hk : k' = k
    · simp [dictPop, alookup, hk, h', ih]
    · by_cases hkey : k' = key <;> simp [dictPop, alookup, hk, hkey, h, ih]

theorem alookup_setKey_self (l : List (String × JVal)) (k : String) (v : JVal) :
    alookup (setKey l k v) k = some v := by
  induction l with
  | nil => simp [setKey, alookup]
  | cons p r ih =>
    obtain ⟨k', w⟩ := p
    by_cases hk : k' = k <;> simp [setKey, alookup, hk, ih]

theorem alookup_setKey_ne (l : List (String × JVal)) (k : String) (v : JVal) (key : String)
    (h : ¬ key = k) : alookup (setKey l k v) key = alookup l key := by
  have h' : ¬ k = key := fun hc => h hc.symm
  induction l with
  | nil => simp [setKey, alookup, h']
  | cons p r ih =>
    obtain ⟨k', w⟩ := p
    by_cases hk : k' = k
    · simp [setKey, alookup, hk, h', ih]
    · by_cases hkey : k' = key <;> simp [setKey, alookup, hk, hkey, h, ih]

theorem mapM_ok_iff {α β : Type} (f : α → Except String β) :
    ∀ (l : List α) (l' : List β),
      l.mapM f = .ok l' ↔ List.Forall₂ (fun a b => f a = .ok b) l l' := by
  intro l
  induction l with
  | nil =>
    intro l'
    rw [List.mapM_nil]
    constructor
    · intro h
      cases h
      exact List.Forall₂.nil
    · intro h
      cases h
      rfl
  | cons a r ih =>
    intro l'
    rw [List.mapM_cons]
    constructor
    · intro h
      rcases hfa : f a with e | b
      · rw [hfa] at h
        simp only [Bind.bind, Except.bind] at h
        cases h
      · rw [hfa] at h
        simp only [Bind.bind, Except.bind] at h
        rcases hmr : r.mapM f with e | bs
        · rw [hmr] at h
          cases h
        · rw [hmr] at h
          simp only [pure, Except.pure, Except.ok.injEq] at h
          subst h
          exact List.Forall₂.cons hfa ((ih bs).mp hmr)
    · intro h
      cases h with
      | cons hab hrest =>
        simp only [Bind.bind, Except.bind, hab, (ih _).mpr hrest, pure, Except.pure]

theorem mapM_ok_length {α β : Type} (f : α → Except String β) (l : List α) (l' : List β)
    (h : l.mapM f = .ok l') : l'.length = l.length :=
  (((mapM_ok_iff f l l').mp h).length_eq).symm

theorem stripEntries_lookup_u (l : List (String × JVal)) :
    alookup (stripEntries l) "updatedAtTimestamp" = none := by
  induction l with
  | nil => rfl
  | cons p r ih =>
    obtain ⟨k, v⟩ := p
    by_cases h : k = "createdAtTimestamp" ∨ k = "updatedAtTimestamp"
    · simp [stripEntries, h, ih]
    · have hc : ¬ k = "createdAtTimestamp" := fun hx => h (Or.inl hx)
      have hu : ¬ k = "updatedAtTimestamp" := fun hx => h (Or.inr hx)
      simp [stripEntries, hc, hu, alookup, ih]

theorem stripEntries_lookup_c (l : List (String × JVal)) :
    alookup (stripEntries l) "createdAtTimestamp" = none := by
  induction l with
  | nil => rfl
  | cons p r ih =>
    obtain ⟨k, v⟩ := p
    by_cases h : k = "createdAtTimestamp" ∨ k = "updatedAtTimestamp"
    · simp [stripEntries, h, ih]
    · have hc : ¬ k = "createdAtTimestamp" := fun hx => h (Or.inl hx)
      have hu : ¬ k = "updatedAtTimestamp" := fun hx => h (Or.inr hx)
      simp [stripEntries, hc, hu, alookup, ih]

theorem stripEntries_lookup_ne (l : List (String × JVal)) (k : String)
    (h1 : ¬ k = "updatedAtTimestamp") (h2 : ¬ k = "createdAtTimestamp") :
    alookup (stripEntries l) k = alookup l k := by
  induction l with
  | nil => rfl
  | cons p r ih =>
    obtain ⟨k', v⟩ := p
    by_cases h : k' = "createdAtTimestamp" ∨ k' = "updatedAtTimestamp"
    · have hne : ¬ k' = k := by
        rcases h with h | h <;> exact fun hc => by simp_all
      simp [stripEntries, h, alookup, hne, ih]
    · have hc : ¬ k' = "createdAtTimestamp" := fun hx => h (Or.inl hx)
      have hu : ¬ k' = "updatedAtTimestamp" := fun hx => h (Or.inr hx)
      by_cases hk : k' = k <;> simp [stripEntries, hc, hu, h1, h2, alookup, hk, ih]

theorem stripEntries_idem (l : List (String × JVal)) :
    stripEntries (stripEntries l) = stripEntries l := by
  induction l with
  | nil => rfl
  | cons p r ih =>
    obtain ⟨k, v⟩ := p
    by_cases h : k = "createdAtTimestamp" ∨ k = "updatedAtTimestamp" <;>
      simp [stripEntries, h, ih]

/-- Claim C7: when no previous snapshot exists for the case identifier,
the Differ returns exactly the single first-observation descriptor,
whatever the current record holds, and performs no comparison. -/
theorem c7_first_observation (prev : List (String × JVal)) (r : String) (cur : JVal)
    (h : alookup prev r = none) :
    detect_changes prev r cur = .ok ["Initial monitoring setup"] := by
  simp [detect_changes, h]

theorem c7_first_observation_witness :
    alookup ([] : List (String × JVal)) "IOE1" = none ∧
      detect_changes [] "IOE1" (.num 3) = .ok ["Initial monitoring setup"] :=
  ⟨rfl, c7_first_observation [] "IOE1" (.num 3) rfl⟩

/-- Claim C10: as soon as a previous snapshot exists, the Differ
indexes the snapshot's `data` entry and the current record's `data` key
before comparing anything; if either lookup fails the whole call fails
with that lookup error instead of returning descriptors. -/
theorem c10_missing_data_error (prev : List (String × JVal)) (r : String) (cur snap : JVal)
    (h : alookup prev r = some snap) :
    (∀ e, pyIndex snap "data" = .error e → detect_changes prev r cur = .error e) ∧
    (∀ pd e, pyIndex snap "data" = .ok pd → pyIndex cur "data" = .error e →
      detect_changes prev r cur = .error e) := by
  constructor
  · intro e he
    simp [detect_changes, h, he]
  · intro pd e hpd he
    simp [detect_changes, h, hpd, he]

theorem c10_missing_data_error_witness :
    detect_changes [("IOE1", .obj [("hash", .str "h")])] "IOE1" (.obj [])
      = .error "KeyError: data" :=
  (c10_missing_data_error [("IOE1", .obj [("hash", .str "h")])] "IOE1" (.obj [])
    (.obj [("hash", .str "h")]) rfl).1 "KeyError: data" rfl

/-- Claim C9: whenever the input record has a `data` key and
normalization succeeds, the canonical record consists of the single
top-level key `data`; every other top-level key of the input is
discarded. -/
theorem c9_only_data_key (x y : JVal) (hc : pyContains x "data" = .ok true)
    (hf : filter_relevant_data x = .ok y) : ∃ d, y = .obj [("data", d)] := by
  unfold filter_relevant_data at hf
  rw [hc] at hf
  rcases hpi : pyIndex x "data" with e | dv
  · simp only [hpi] at hf
    exact Except.noConfusion hf
  · simp only [hpi] at hf
    cases dv with
    | obj dkvs =>
      rcases hev : alookup (dictPop (dictPop dkvs "updatedAtTimestamp") "createdAtTimestamp")
          "events" with _ | ev
      · simp only [hev] at hf
        cases hf
        exact ⟨_, rfl⟩
      · simp only [hev] at hf
        rcases hii : pyIterItems ev with e | items
        · simp only [hii] at hf
          exact Except.noConfusion hf
        · simp only [hii] at hf
          rcases hm : items.mapM filterEvent with e | evs0
          · simp only [hm] at hf
            exact Except.noConfusion hf
          · simp only [hm] at hf
            cases hf
            exact ⟨_, rfl⟩
    | null => exact Except.noConfusion hf
    | bool b => exact Except.noConfusion hf
    | num n => exact Except.noConfusion hf
    | str s => exact Except.noConfusion hf
    | arr xs => exact Except.noConfusion hf

theorem c9_only_data_key_witness :
    pyContains (.obj [("data", .obj [("a", .num 1)]), ("zz", .num 2)]) "data" = .ok true ∧
      ∃ d, (.obj [("data", .obj [("a", .num 1)])] : JVal) = .obj [("data", d)] :=
  ⟨rfl, c9_only_data_key (.obj [("data", .obj [("a", .num 1)]), ("zz", .num 2)])
    (.obj [("data", .obj [("a", .num 1)])]) rfl rfl⟩

/-- Claim C3: the normalizer returns a record without a `data` key
unchanged; otherwise it removes `updatedAtTimestamp` and
`createdAtTimestamp` from the `data` object when present (their absence
is no error, and every other non-`events` field is untouched), and
strips the same two keys from every entry of `data.events` while
preserving the event order and all other fields of each event. -/
theorem c3_normalize_strips :
    (∀ x : JVal, pyContains x "data" = .ok false → filter_relevant_data x = .ok x) ∧
    (∀ kvs dkvs y, alookup kvs "data" = some (.obj dkvs) →
      filter_relevant_data (.obj kvs) = .ok y →
      ∃ dkvs', y = .obj [("data", .obj dkvs')] ∧
        alookup dkvs' "updatedAtTimestamp" = none ∧
        alookup dkvs' "createdAtTimestamp" = none ∧
        (∀ k, ¬ k = "updatedAtTimestamp" → ¬ k = "createdAtTimestamp" → ¬ k = "events" →
          alookup dkvs' k = alookup dkvs k) ∧
        (alookup dkvs "events" = none → alookup dkvs' "events" = none) ∧
        (∀ evs, alookup dkvs "events" = some (.arr evs) →
          ∃ evs', alookup dkvs' "events" = some (.arr evs') ∧
            evs'.length = evs.length ∧
            (∀ i ekv, evs.get? i = some (.obj ekv) →
              ∃ ekv', evs'.get? i = some (.obj ekv') ∧
                alookup ekv' "updatedAtTimestamp" = none ∧
                alookup ekv' "createdAtTimestamp" = none ∧
                (∀ k, ¬ k = "updatedAtTimestamp" → ¬ k = "createdAtTimestamp" →
                  alookup ekv' k = alookup ekv k)))) := by
  have hucne : ¬ ("updatedAtTimestamp" : String) = "createdAtTimestamp" := by decide
  have hevu : ¬ ("events" : String) = "updatedAtTimestamp" := by decide
  have hevc : ¬ ("events" : String) = "createdAtTimestamp" := by decide
  constructor
  · intro x hx
    unfold filter_relevant_data
    rw [hx]
  · intro kvs dkvs y hd hf
    unfold filter_relevant_data at hf
    have hcont : pyContains (.obj kvs) "data" = .ok true := by
      simp [pyContains, hd]
    rw [hcont] at hf
    have hpi : pyIndex (.obj kvs) "data" = .ok (.obj dkvs) := by
      simp [pyIndex, hd]
    rw [hpi] at hf
    have cdu : alookup (dictPop (dictPop dkvs "updatedAtTimestamp") "createdAtTimestamp")
        "updatedAtTimestamp" = none := by
      rw [alookup_dictPop_ne _ _ _ hucne, alookup_dictPop_self]
    have cdc : alookup (dictPop (dictPop dkvs "updatedAtTimestamp") "createdAtTimestamp")
        "createdAtTimestamp" = none := alookup_dictPop_self _ _
    have cdk : ∀ k, ¬ k = "updatedAtTimestamp" → ¬ k = "createdAtTimestamp" →
        alookup (dictPop (dictPop dkvs "updatedAtTimestamp") "createdAtTimestamp") k
          = alookup dkvs k := by
      intro k h1 h2
      rw [alookup_dictPop_ne _ _ _ h2, alookup_dictPop_ne _ _ _ h1]
    rcases hev : alookup (dictPop (dictPop dkvs "updatedAtTimestamp") "createdAtTimestamp")
        "events" with _ | ev
    · simp only [hev] at hf
      cases hf
      refine ⟨_, rfl, cdu, cdc, fun k h1 h2 _ => cdk k h1 h2, fun _ => hev, ?_⟩
      intro evs hevs
      rw [cdk "events" hevu hevc, hevs] at hev
      cases hev
    · simp only [hev] at hf
      rcases hii : pyIterItems ev with e | items
      · simp only [hii] at hf
        exact Except.noConfusion hf
      · simp only [hii] at hf
        rcases hm : items.mapM filterEvent with e | evs0
        · simp only [hm] at hf
          exact Except.noConfusion hf
        · simp only [hm] at hf
          cases hf
          have huev : ¬ ("updatedAtTimestamp" : String) = "events" := by decide
          have hcev : ¬ ("createdAtTimestamp" : String) = "events" := by decide
          refine ⟨_, rfl, ?_, ?_, ?_, ?_, ?_⟩
          · rw [alookup_setKey_ne _ _ _ _ huev]
            exact cdu
          · rw [alookup_setKey_ne _ _ _ _ hcev]
            exact cdc
          · intro k h1 h2 h3
            rw [alookup_setKey_ne _ _ _ _ h3]
            exact cdk k h1 h2
          · intro hn
            rw [cdk "events" hevu hevc, hn] at hev
            cases hev
          · intro evs hevs
            rw [cdk "events" hevu hevc, hevs] at hev
            injection hev with hev'
            subst hev'
            simp only [pyIterItems, Except.ok.injEq] at hii
            subst hii
            refine ⟨evs0, alookup_setKey_self _ _ _, mapM_ok_length _ _ _ hm, ?_⟩
            intro i ekv hi
            have F := (mapM_ok_iff filterEvent evs evs0).mp hm
            obtain ⟨hlen, hget⟩ := List.forall₂_iff_get.mp F
            obtain ⟨hilt, hgete⟩ := List.get?_eq_some.mp hi
            have hilt2 : i < evs0.length := hlen ▸ hilt
            have hR := hget i hilt hilt2
            rw [hgete] at hR
            simp only [filterEvent] at hR
            have hg0 : evs0.get ⟨i, hilt2⟩ = .obj (stripEntries ekv) := by
              injection hR with h
              exact h.symm
            refine ⟨stripEntries ekv, ?_, stripEntries_lookup_u _, stripEntries_lookup_c _, ?_⟩
            · rw [List.get?_eq_get hilt2, hg0]
            · intro k h1 h2
              exact stripEntries_lookup_ne _ _ h1 h2

theorem c3_normalize_strips_witness :
    filter_relevant_data (.str "plain") = .ok (.str "plain") ∧
    ∃ dkvs', (JVal.obj [("data", JVal.obj [("x", JVal.str "v"),
        ("events", JVal.arr [JVal.obj [("eventCode", JVal.str "A")]])])])
        = JVal.obj [("data", JVal.obj dkvs')] ∧ alookup dkvs' "updatedAtTimestamp" = none := by
  constructor
  · exact c3_normalize_strips.1 (.str "plain") rfl
  · obtain ⟨dkvs', hy, hu, _⟩ := c3_normalize_strips.2
      [("data", .obj [("updatedAtTimestamp", .num 1), ("x", .str "v"),
        ("events", .arr [.obj [("eventCode", .str "A"), ("createdAtTimestamp", .num 2)]])]),
       ("other", .num 7)]
      [("updatedAtTimestamp", .num 1), ("x", .str "v"),
        ("events", .arr [.obj [("eventCode", .str "A"), ("createdAtTimestamp", .num 2)]])]
      (.obj [("data", .obj [("x", .str "v"),
        ("events", .arr [.obj [("eventCode", .str "A")]])])])
      rfl rfl
    exact ⟨dkvs', hy, hu⟩

theorem dictPop_eq_self (l : List (String × JVal)) (k : String) (h : alookup l k = none) :
    dictPop l k = l := by
  induction l with
  | nil => rfl
  | cons p r ih =>
    obtain ⟨k', v⟩ := p
    by_cases hk : k' = k
    · rw [alookup, if_pos hk] at h
      cases h
    · rw [alookup, if_neg hk] at h
      simp [dictPop, hk, ih h]

theorem setKey_eq_self (l : List (String × JVal)) (k : String) (v : JVal)
    (h : alookup l k = some v) : setKey l k v = l := by
  induction l with
  | nil => cases h
  | cons p r ih =>
    obtain ⟨k', w⟩ := p
    by_cases hk : k' = k
    · rw [alookup, if_pos hk] at h
      injection h with h
      subst h
      simp [setKey, hk]
    · rw [alookup, if_neg hk] at h
      simp [setKey, hk, ih h]

theorem filterEvent_idem_mapM (l l' : List JVal) (h : l.mapM filterEvent = .ok l') :
    l'.mapM filterEvent = .ok l' := by
  rw [mapM_ok_iff] at h ⊢
  induction h with
  | nil => exact .nil
  | @cons a b as bs hab _ ih =>
    refine .cons ?_ ih
    cases a with
    | obj ekv =>
      simp only [filterEvent, Except.ok.injEq] at hab
      subst hab
      simp [filterEvent, stripEntries_idem]
    | null => exact Except.noConfusion hab
    | bool x => exact Except.noConfusion hab
    | num x => exact Except.noConfusion hab
    | str x => exact Except.noConfusion hab
    | arr x => exact Except.noConfusion hab

/-- Claim C6: the normalizer is idempotent — whenever
`filter_relevant_data` succeeds, running it again on its output
reproduces that output unchanged. -/
theorem c6_normalize_idempotent (x y : JVal) (h : filter_relevant_data x = .ok y) :
    filter_relevant_data y = .ok y := by
  unfold filter_relevant_data at h
  rcases hc : pyContains x "data" with e | b
  · rw [hc] at h
    exact Except.noConfusion h
  · rw [hc] at h
    cases b with
    | false =>
      cases h
      unfold filter_relevant_data
      rw [hc]
    | true =>
      rcases hpi : pyIndex x "data" with e | dv
      · simp only [hpi] at h
        exact Except.noConfusion h
      · simp only [hpi] at h
        cases dv with
        | null => exact Except.noConfusion h
        | bool c => exact Except.noConfusion h
        | num c => exact Except.noConfusion h
        | str c => exact Except.noConfusion h
        | arr c => exact Except.noConfusion h
        | obj dkvs =>
          have hucne : ¬ ("updatedAtTimestamp" : String) = "createdAtTimestamp" := by decide
          have cdu : alookup (dictPop (dictPop dkvs "updatedAtTimestamp") "createdAtTimestamp")
              "updatedAtTimestamp" = none := by
            rw [alookup_dictPop_ne _ _ _ hucne, alookup_dictPop_self]
          have cdc : alookup (dictPop (dictPop dkvs "updatedAtTimestamp") "createdAtTimestamp")
              "createdAtTimestamp" = none := alookup_dictPop_self _ _
          rcases hev : alookup (dictPop (dictPop dkvs "updatedAtTimestamp") "createdAtTimestamp")
              "events" with _ | ev
          · simp only [hev] at h
            cases h
            unfold filter_relevant_data
            have h1 : pyContains (.obj [("data",
                .obj (dictPop (dictPop dkvs "updatedAtTimestamp") "createdAtTimestamp"))])
                "data" = .ok true := by
              simp [pyContains, alookup]
            simp only [h1]
            have h2 : pyIndex (.obj [("data",
                .obj (dictPop (dictPop dkvs "updatedAtTimestamp") "createdAtTimestamp"))])
                "data" = .ok (.obj (dictPop (dictPop dkvs "updatedAtTimestamp")
                  "createdAtTimestamp")) := by
              simp [pyIndex, alookup]
            simp only [h2]
            rw [dictPop_eq_self _ _ cdu, dictPop_eq_self _ _ cdc, hev]
          · simp only [hev] at h
            rcases hii : pyIterItems ev with e | items
            · simp only [hii] at h
              exact Except.noConfusion h
            · simp only [hii] at h
              rcases hm : items.mapM filterEvent with e | evs0
              · simp only [hm] at h
                exact Except.noConfusion h
              · simp only [hm] at h
                cases h
                have huev : ¬ ("updatedAtTimestamp" : String) = "events" := by decide
                have hcev : ¬ ("createdAtTimestamp" : String) = "events" := by decide
                unfold filter_relevant_data
                have h1 : pyContains (.obj [("data", .obj (setKey
                    (dictPop (dictPop dkvs "updatedAtTimestamp") "createdAtTimestamp")
                    "events" (.arr evs0)))]) "data" = .ok true := by
                  simp [pyContains, alookup]
                simp only [h1]
                have h2 : pyIndex (.obj [("data", .obj (setKey
                    (dictPop (dictPop dkvs "updatedAtTimestamp") "createdAtTimestamp")
                    "events" (.arr evs0)))]) "data" = .ok (.obj (setKey
                    (dictPop (dictPop dkvs "updatedAtTimestamp") "createdAtTimestamp")
                    "events" (.arr evs0))) := by
                  simp [pyIndex, alookup]
                simp only [h2]
                have hdu : alookup (setKey
                    (dictPop (dictPop dkvs "updatedAtTimestamp") "createdAtTimestamp")
                    "events" (.arr evs0)) "updatedAtTimestamp" = none := by
                  rw [alookup_setKey_ne _ _ _ _ huev]
                  exact cdu
                have hdc : alookup (setKey
                    (dictPop (dictPop dkvs "updatedAtTimestamp") "createdAtTimestamp")
                    "events" (.arr evs0)) "createdAtTimestamp" = none := by
                  rw [alookup_setKey_ne _ _ _ _ hcev]
                  exact cdc
                rw [dictPop_eq_self _ _ hdu, dictPop_eq_self _ _ hdc, alookup_setKey_self]
                simp only [pyIterItems]
                simp only [filterEvent_idem_mapM _ _ hm,
                  setKey_eq_self _ _ _ (alookup_setKey_self _ _ _)]

theorem c6_normalize_idempotent_witness :
    filter_relevant_data (.obj [("data", .obj [("updatedAtTimestamp", .num 1), ("x", .str "v"),
        ("events", .arr [.obj [("eventCode", .str "A"), ("createdAtTimestamp", .num 2)]])])])
      = .ok (.obj [("data", .obj [("x", .str "v"),
        ("events", .arr [.obj [("eventCode", .str "A")]])])]) ∧
    filter_relevant_data (.obj [("data", .obj [("x", .str "v"),
        ("events", .arr [.obj [("eventCode", .str "A")]])])])
      = .ok (.obj [("data", .obj [("x", .str "v"),
        ("events", .arr [.obj [("eventCode", .str "A")]])])]) :=
  ⟨rfl, c6_normalize_idempotent
    (.obj [("data", .obj [("updatedAtTimestamp", .num 1), ("x", .str "v"),
      ("events", .arr [.obj [("eventCode", .str "A"), ("createdAtTimestamp", .num 2)]])])])
    _ rfl⟩

theorem pyLen_arr (xs : List JVal) : pyLen (.arr xs) = .ok xs.length := rfl

theorem pySliceIter_arr (xs : List JVal) (n : Nat) :
    pySliceIter (.arr xs) n = .ok (xs.take n) := rfl

/-- Claim C8: when a previous snapshot exists, its record and the
current record carry an unchanged `updatedAt`, and none of the
`events`, `evidenceRequests` or `notices` sequences is strictly longer
in the current record (decreases included, identical records as a
special case), the Differ returns the empty list. -/
theorem c8_no_growth_empty (prev : List (String × JVal)) (r : String) (cur snap : JVal)
    (pkv ckv : List (String × JVal)) (pn cn pe ce pns cns : Nat)
    (hsnap : alookup prev r = some snap)
    (hpd : pyIndex snap "data" = .ok (.obj pkv))
    (hcd : pyIndex cur "data" = .ok (.obj ckv))
    (hupd : jeqbOpt (alookup pkv "updatedAt") (alookup ckv "updatedAt") = true)
    (hpe : pyLen ((alookup pkv "events").getD (.arr [])) = .ok pn)
    (hce : pyLen ((alookup ckv "events").getD (.arr [])) = .ok cn)
    (hen : cn ≤ pn)
    (hpev : pyLen ((alookup pkv "evidenceRequests").getD (.arr [])) = .ok pe)
    (hcev : pyLen ((alookup ckv "evidenceRequests").getD (.arr [])) = .ok ce)
    (hevn : ce ≤ pe)
    (hpnt : pyLen ((alookup pkv "notices").getD (.arr [])) = .ok pns)
    (hcnt : pyLen ((alookup ckv "notices").getD (.arr [])) = .ok cns)
    (hntn : cns ≤ pns) :
    detect_changes prev r cur = .ok [] := by
  have h1 : ¬ pn < cn := by omega
  have h2 : ¬ pe < ce := by omega
  have h3 : ¬ pns < cns := by omega
  simp only [detect_changes, hsnap, hpd, hcd, hupd, hpe, hce, hpev, hcev, hpnt, hcnt,
    if_true, h1, h2, h3, if_false, List.append_nil, List.nil_append]

theorem c8_no_growth_empty_witness :
    detect_changes
      [("IOE1", .obj [("hash", .str "h"), ("data", .obj [("updatedAt", .str "u"),
        ("events", .arr [.null, .null])])])]
      "IOE1" (.obj [("data", .obj [("updatedAt", .str "u"), ("events", .arr [.null])])])
      = .ok [] :=
  c8_no_growth_empty _ "IOE1" _ (.obj [("hash", .str "h"), ("data", .obj [("updatedAt", .str "u"),
      ("events", .arr [.null, .null])])])
    [("updatedAt", .str "u"), ("events", .arr [.null, .null])]
    [("updatedAt", .str "u"), ("events", .arr [.null])]
    2 1 0 0 0 0 rfl rfl rfl rfl rfl rfl (by omega) rfl rfl (by omega) rfl rfl (by omega)

/-- Claim C1 (amended): with an unchanged `updatedAt` and no growth in
the other sequences, when the current events list is longer by `N > 0`
the Differ emits the descriptor counting `N` new events followed by one
descriptor per event for exactly the first `N` entries of the current
events sequence, in current-sequence order — for an event appended at
the end, the detailed entries are the oldest ones, not the appended
one. -/
theorem c1_new_events (prev : List (String × JVal)) (r : String) (cur snap : JVal)
    (pkv ckv : List (String × JVal)) (pevs cevs : List JVal) (N : Nat) (msgs : List String)
    (pe ce pns cns : Nat)
    (hsnap : alookup prev r = some snap)
    (hpd : pyIndex snap "data" = .ok (.obj pkv))
    (hcd : pyIndex cur "data" = .ok (.obj ckv))
    (hupd : jeqbOpt (alookup pkv "updatedAt") (alookup ckv "updatedAt") = true)
    (hpev : (alookup pkv "events").getD (.arr []) = .arr pevs)
    (hcev : (alookup ckv "events").getD (.arr []) = .arr cevs)
    (hlen : cevs.length = pevs.length + N)
    (hN : 0 < N)
    (hdetail : (cevs.take N).mapM event_detail = .ok msgs)
    (hpe : pyLen ((alookup pkv "evidenceRequests").getD (.arr [])) = .ok pe)
    (hce : pyLen ((alookup ckv "evidenceRequests").getD (.arr [])) = .ok ce)
    (hevn : ce ≤ pe)
    (hpnt : pyLen ((alookup pkv "notices").getD (.arr [])) = .ok pns)
    (hcnt : pyLen ((alookup ckv "notices").getD (.arr [])) = .ok cns)
    (hntn : cns ≤ pns) :
    detect_changes prev r cur = .ok ((toString N ++ " new event(s) added") :: msgs) := by
  have h1 : pevs.length < cevs.length := by omega
  have h2 : ¬ pe < ce := by omega
  have h3 : ¬ pns < cns := by omega
  have hsub : cevs.length - pevs.length = N := by omega
  simp only [detect_changes, hsnap, hpd, hcd, hupd, hpev, hcev, pyLen_arr, pySliceIter_arr,
    if_true, h1, h2, h3, if_false, hsub, hdetail, hpe, hce, hpnt, hcnt,
    List.append_nil, List.nil_append]

theorem c1_new_events_witness :
    detect_changes
      [("IOE1", .obj [("hash", .str "h"), ("data", .obj [("updatedAt", .str "u"),
        ("events", .arr [.obj [("eventCode", .str "A"), ("eventDateTime", .str "2024-01-01")],
                         .obj [("eventCode", .str "B"), ("eventDateTime", .str "2024-01-02")]])])])]
      "IOE1"
      (.obj [("data", .obj [("updatedAt", .str "u"),
        ("events", .arr [.obj [("eventCode", .str "A"), ("eventDateTime", .str "2024-01-01")],
                         .obj [("eventCode", .str "B"), ("eventDateTime", .str "2024-01-02")],
                         .obj [("eventCode", .str "E1"), ("eventDateTime", .str "2024-01-05")]])])])
      = .ok ["1 new event(s) added", "New event: A on 2024-01-01"] :=
  c1_new_events _ "IOE1" _
    (.obj [("hash", .str "h"), ("data", .obj [("updatedAt", .str "u"),
      ("events", .arr [.obj [("eventCode", .str "A"), ("eventDateTime", .str "2024-01-01")],
                       .obj [("eventCode", .str "B"), ("eventDateTime", .str "2024-01-02")]])])])
    [("updatedAt", .str "u"),
      ("events", .arr [.obj [("eventCode", .str "A"), ("eventDateTime", .str "2024-01-01")],
                       .obj [("eventCode", .str "B"), ("eventDateTime", .str "2024-01-02")]])]
    [("updatedAt", .str "u"),
      ("events", .arr [.obj [("eventCode", .str "A"), ("eventDateTime", .str "2024-01-01")],
                       .obj [("eventCode", .str "B"), ("eventDateTime", .str "2024-01-02")],
                       .obj [("eventCode", .str "E1"), ("eventDateTime", .str "2024-01-05")]])]
    [.obj [("eventCode", .str "A"), ("eventDateTime", .str "2024-01-01")],
     .obj [("eventCode", .str "B"), ("eventDateTime", .str "2024-01-02")]]
    [.obj [("eventCode", .str "A"), ("eventDateTime", .str "2024-01-01")],
     .obj [("eventCode", .str "B"), ("eventDateTime", .str "2024-01-02")],
     .obj [("eventCode", .str "E1"), ("eventDateTime", .str "2024-01-05")]]
    1 ["New event: A on 2024-01-01"] 0 0 0 0
    rfl rfl rfl rfl rfl rfl rfl (by omega) rfl rfl rfl (by omega) rfl rfl (by omega)

theorem c1_counterexample :
    detect_changes
      [("IOE1", .obj [("hash", .str "h"), ("data", .obj [("updatedAt", .str "u"),
        ("events", .arr [.obj [("eventCode", .str "A"), ("eventDateTime", .str "2024-01-01")],
                         .obj [("eventCode", .str "B"), ("eventDateTime", .str "2024-01-02")]])])])]
      "IOE1"
      (.obj [("data", .obj [("updatedAt", .str "u"),
        ("events", .arr [.obj [("eventCode", .str "A"), ("eventDateTime", .str "2024-01-01")],
                         .obj [("eventCode", .str "B"), ("eventDateTime", .str "2024-01-02")],
                         .obj [("eventCode", .str "E1"), ("eventDateTime", .str "2024-01-05")]])])])
      = .ok ["1 new event(s) added", "New event: A on 2024-01-01"] ∧
    ¬ ("New event: E1 on 2024-01-05"
        ∈ ["1 new event(s) added", "New event: A on 2024-01-01"]) :=
  ⟨rfl, by decide⟩

theorem check_cases_go_keys (fetch : String → Option JVal) (prev : List (String × JVal))
    (now : String) :
    ∀ (cs : List CaseCfg) (states : List (String × JVal)) (notifs : List (String × String))
      (st : List (String × JVal)) (ns : List (String × String)),
      check_cases_go fetch prev now cs states notifs = .ok (st, ns) →
      ∀ r, (alookup st r).isSome = true ↔
        ((alookup states r).isSome = true ∨
          ∃ c ∈ cs, c.receipt_number = r ∧ fetchTruthy fetch r = true) := by
  intro cs
  induction cs with
  | nil =>
    intro states notifs st ns h r
    unfold check_cases_go at h
    injection h with h
    injection h with h1 h2
    subst h1
    simp
  | cons c rest ih =>
    intro states notifs st ns h r
    unfold check_cases_go at h
    rcases hf : fetch c.receipt_number with _ | cur
    · simp only [hf] at h
      have ihr := ih _ _ _ _ h r
      rw [ihr]
      simp only [List.exists_mem_cons_iff]
      constructor
      · rintro (hs | hrest)
        · exact Or.inl hs
        · exact Or.inr (Or.inr hrest)
      · rintro (hs | hcd | hrest)
        · exact Or.inl hs
        · exfalso
          obtain ⟨he, ht⟩ := hcd
          rw [← he] at ht
          unfold fetchTruthy at ht
          rw [hf] at ht
          cases ht
        · exact Or.inr hrest
    · simp only [hf] at h
      rcases htr : pyTruthy cur with _ | _
      · simp only [htr, Bool.not_false, if_true] at h
        have ihr := ih _ _ _ _ h r
        rw [ihr]
        simp only [List.exists_mem_cons_iff]
        constructor
        · rintro (hs | hrest)
          · exact Or.inl hs
          · exact Or.inr (Or.inr hrest)
        · rintro (hs | hcd | hrest)
          · exact Or.inl hs
          · exfalso
            obtain ⟨he, ht⟩ := hcd
            rw [← he] at ht
            unfold fetchTruthy at ht
            rw [hf] at ht
            simp only [htr, Bool.false_eq_true] at ht
          · exact Or.inr hrest
      · simp only [htr, Bool.not_true, Bool.false_eq_true, if_false] at h
        rcases hch : calculate_hash cur with e | hsh
        · rw [hch] at h
          exact Except.noConfusion h
        · simp only [hch] at h
          rcases hpv : (alookup prev c.receipt_number).getD (.obj [])
            with _ | b | n | s | xs | pSnap
          all_goals simp only [hpv] at h
          · exact Except.noConfusion h
          · exact Except.noConfusion h
          · exact Except.noConfusion h
          · exact Except.noConfusion h
          · exact Except.noConfusion h
          · have hstep : ∀ (X : List (String × String)),
                check_cases_go fetch prev now rest
                  (setKey states c.receipt_number
                    (snapshotObj hsh cur now (c.description.getD c.receipt_number))) X
                  = .ok (st, ns) →
                ((alookup st r).isSome = true ↔
                  ((alookup states r).isSome = true ∨
                    ∃ c' ∈ c :: rest, c'.receipt_number = r ∧ fetchTruthy fetch r = true)) := by
              intro X hrec
              have ihr := ih _ _ _ _ hrec r
              simp only [List.exists_mem_cons_iff]
              by_cases hr0 : r = c.receipt_number
              · constructor
                · intro _
                  refine Or.inr (Or.inl ⟨hr0.symm, ?_⟩)
                  unfold fetchTruthy
                  rw [hr0, hf]
                  exact htr
                · intro _
                  apply ihr.mpr
                  refine Or.inl ?_
                  rw [hr0, alookup_setKey_self]
                  rfl
              · rw [alookup_setKey_ne _ _ _ _ hr0] at ihr
                rw [ihr]
                constructor
                · rintro (hs | hrest)
                  · exact Or.inl hs
                  · exact Or.inr (Or.inr hrest)
                · rintro (hs | hcd | hrest)
                  · exact Or.inl hs
                  · exact absurd hcd.1 (fun he => hr0 he.symm)
                  · exact Or.inr hrest
            rcases hhs : hashSame hsh (alookup pSnap "hash") with _ | _
            · simp only [hhs, Bool.false_eq_true, if_false] at h
              rcases hdc : detect_changes prev c.receipt_number cur with e | changes
              · rw [hdc] at h
                exact Except.noConfusion h
              · rw [hdc] at h
                rcases hemp : changes.isEmpty with _ | _
                · simp only [hemp, Bool.false_eq_true, if_false] at h
                  exact hstep _ h
                · simp only [hemp, if_true] at h
                  exact hstep _ h
            · simp only [hhs, if_true] at h
              exact hstep _ h

theorem c2_counterexample :
    check_cases [⟨"A", none⟩] (fun _ => some (.obj [])) [] "t" = .ok ([], []) ∧
    (fun _ => some (JVal.obj [])) "A" = some (.obj []) ∧
    alookup ([] : List (String × JVal)) "A" = none :=
  ⟨rfl, rfl, rfl⟩

/-- Claim C2 (amended): after a completed run of `check_cases`, the
persisted store holds a key exactly for each configured case whose
fetch returned a truthy record; a case whose fetch failed — or
returned a falsy record such as the empty object, which the
`if not current_data` guard treats as a failure — is absent, while the
remaining configured cases are still processed normally. -/
theorem c2_snapshot_keys (cases : List CaseCfg) (fetch : String → Option JVal)
    (prev : List (String × JVal)) (now : String) (st : List (String × JVal))
    (ns : List (String × String))
    (h : check_cases cases fetch prev now = .ok (st, ns)) (r : String) :
    (alookup st r).isSome = true ↔
      ∃ c ∈ cases, c.receipt_number = r ∧ fetchTruthy fetch r = true := by
  have hmain := check_cases_go_keys fetch prev now cases [] [] st ns h r
  simpa [alookup] using hmain

set_option maxRecDepth 8000 in
theorem c2_snapshot_keys_witness :
    ((alookup [("A", snapshotObj "27958648a9e57fcd66ae5e31ff3359e9"
        (.obj [("x", .num 1)]) "t" "descA")] "B").isSome = true ↔
      ∃ c ∈ [(⟨"A", some "descA"⟩ : CaseCfg), ⟨"B", none⟩, ⟨"C", none⟩],
        c.receipt_number = "B" ∧
        fetchTruthy (fun r => if r = "B" then none
          else if r = "C" then some (.obj []) else some (.obj [("x", .num 1)])) "B" = true) ∧
    ((alookup [("A", snapshotObj "27958648a9e57fcd66ae5e31ff3359e9"
        (.obj [("x", .num 1)]) "t" "descA")] "A").isSome = true ↔
      ∃ c ∈ [(⟨"A", some "descA"⟩ : CaseCfg), ⟨"B", none⟩, ⟨"C", none⟩],
        c.receipt_number = "A" ∧
        fetchTruthy (fun r => if r = "B" then none
          else if r = "C" then some (.obj []) else some (.obj [("x", .num 1)])) "A" = true) :=
  ⟨c2_snapshot_keys [⟨"A", some "descA"⟩, ⟨"B", none⟩, ⟨"C", none⟩]
      (fun r => if r = "B" then none
        else if r = "C" then some (.obj []) else some (.obj [("x", .num 1)]))
      [] "t" _
      [("USCIS Case Update: descA", "Case A has been updated:\n• Initial monitoring setup")]
      rfl "B",
   c2_snapshot_keys [⟨"A", some "descA"⟩, ⟨"B", none⟩, ⟨"C", none⟩]
      (fun r => if r = "B" then none
        else if r = "C" then some (.obj []) else some (.obj [("x", .num 1)]))
      [] "t" _
      [("USCIS Case Update: descA", "Case A has been updated:\n• Initial monitoring setup")]
      rfl "A"⟩

theorem w32_lt (n : Nat) : w32 n < 4294967296 := Nat.mod_lt _ (by norm_num)

theorem md5Chunk_lt (h : Nat × Nat × Nat × Nat) (bs : List Nat) :
    (md5Chunk h bs).1 < 4294967296 ∧ (md5Chunk h bs).2.1 < 4294967296 ∧
    (md5Chunk h bs).2.2.1 < 4294967296 ∧ (md5Chunk h bs).2.2.2 < 4294967296 := by
  unfold md5Chunk
  exact ⟨w32_lt _, w32_lt _, w32_lt _, w32_lt _⟩

theorem foldl_md5Chunk_lt (cs : List (List Nat)) (h0 : Nat × Nat × Nat × Nat)
    (hb : h0.1 < 4294967296 ∧ h0.2.1 < 4294967296 ∧ h0.2.2.1 < 4294967296 ∧
      h0.2.2.2 < 4294967296) :
    (cs.foldl md5Chunk h0).1 < 4294967296 ∧ (cs.foldl md5Chunk h0).2.1 < 4294967296 ∧
    (cs.foldl md5Chunk h0).2.2.1 < 4294967296 ∧ (cs.foldl md5Chunk h0).2.2.2 < 4294967296 := by
  induction cs generalizing h0 with
  | nil => exact hb
  | cons b rest ih => exact ih _ (md5Chunk_lt _ _)

theorem md5Words_lt (msg : List Nat) :
    (md5Words msg).1 < 4294967296 ∧ (md5Words msg).2.1 < 4294967296 ∧
    (md5Words msg).2.2.1 < 4294967296 ∧ (md5Words msg).2.2.2 < 4294967296 := by
  unfold md5Words
  exact foldl_md5Chunk_lt _ _ (by norm_num)

theorem md5Nat_lt (msg : List Nat) :
    md5Nat msg < 340282366920938463463374607431768211456 := by
  obtain ⟨h1, h2, h3, h4⟩ := md5Words_lt msg
  unfold md5Nat
  have e2 : (4294967296 : Nat) ^ 2 = 18446744073709551616 := by norm_num
  have e3 : (4294967296 : Nat) ^ 3 = 79228162514264337593543950336 := by norm_num
  rw [e2, e3]
  omega

theorem md5hex_congr (x y : List Nat) (h : md5Nat x = md5Nat y) : md5hex x = md5hex y := by
  obtain ⟨a1, b1, c1, d1⟩ := md5Words_lt x
  obtain ⟨a2, b2, c2, d2⟩ := md5Words_lt y
  unfold md5Nat at h
  have e2 : (4294967296 : Nat) ^ 2 = 18446744073709551616 := by norm_num
  have e3 : (4294967296 : Nat) ^ 3 = 79228162514264337593543950336 := by norm_num
  rw [e2, e3] at h
  have hw1 : (md5Words x).1 = (md5Words y).1 := by omega
  have hw2 : (md5Words x).2.1 = (md5Words y).2.1 := by omega
  have hw3 : (md5Words x).2.2.1 = (md5Words y).2.2.1 := by omega
  have hw4 : (md5Words x).2.2.2 = (md5Words y).2.2.2 := by omega
  unfold md5hex
  rw [hw1, hw2, hw3, hw4]

theorem filter_cRec (n : Nat) : filter_relevant_data (cRec n) = .ok (cRec n) := rfl

theorem cRec_inj (m n : Nat) (h : cRec m = cRec n) : m = n := by
  unfold cRec at h
  simp only [JVal.obj.injEq, List.cons.injEq, Prod.mk.injEq, JVal.str.injEq,
    and_true, true_and] at h
  have := congrArg (fun s : String => s.data.length) h
  simpa using this

theorem c4_counterexample :
    ¬ (∀ a b : JVal,
        filter_relevant_data a = filter_relevant_data b ↔ calculate_hash a = calculate_hash b) := by
  intro hcl
  obtain ⟨m, n, hmn, hg⟩ := Finite.exists_ne_map_eq_of_infinite
    (fun k : Nat => (⟨md5Nat (utf8Bytes (dumps (cRec k))), md5Nat_lt _⟩ :
      Fin 340282366920938463463374607431768211456))
  have hnat : md5Nat (utf8Bytes (dumps (cRec m))) = md5Nat (utf8Bytes (dumps (cRec n))) :=
    congrArg Fin.val hg
  have hhex : calculate_hash (cRec m) = calculate_hash (cRec n) := by
    unfold calculate_hash
    rw [filter_cRec, filter_cRec]
    simp only [Except.map]
    rw [md5hex_congr _ _ hnat]
  have hfeq := (hcl _ _).mpr hhex
  rw [filter_cRec m, filter_cRec n] at hfeq
  injection hfeq with hfeq
  exact hmn (cRec_inj m n hfeq)

/-- Claim C4 (amended): the fingerprint is a function of the canonical
record — two records with equal canonical (normalized) forms always
fingerprint identically, so volatile-field-only edits cannot change the
digest and a digest change implies a canonical change; the converse
fails, since the fixed-width digest admits collisions between distinct
canonical records. -/
theorem c4_hash_of_canonical (a b : JVal)
    (h : filter_relevant_data a = filter_relevant_data b) :
    calculate_hash a = calculate_hash b := by
  unfold calculate_hash
  rw [h]

theorem c4_hash_of_canonical_witness :
    filter_relevant_data (.obj [("data", .obj [("updatedAtTimestamp", .num 99), ("x", .str "v")])])
      = filter_relevant_data (.obj [("data", .obj [("x", .str "v")])]) ∧
    calculate_hash (.obj [("data", .obj [("updatedAtTimestamp", .num 99), ("x", .str "v")])])
      = calculate_hash (.obj [("data", .obj [("x", .str "v")])]) :=
  ⟨rfl, c4_hash_of_canonical _ _ rfl⟩

theorem jval_strong_ind (motive : JVal → Prop)
    (h : ∀ v, (∀ w, sizeOf w < sizeOf v → motive w) → motive v) : ∀ v, motive v := by
  have hn : ∀ (n : Nat) (v : JVal), sizeOf v ≤ n → motive v := by
    intro n
    induction n with
    | zero =>
      intro v hv
      apply h
      intro w hw
      exfalso
      omega
    | succ n ih =>
      intro v hv
      apply h
      intro w hw
      exact ih w (by omega)
  exact fun v => hn (sizeOf v) v (le_refl _)

theorem sizeOf_mem_arr {x : JVal} {xs : List JVal} (h : x ∈ xs) :
    sizeOf x < sizeOf (JVal.arr xs) := by
  have h1 := List.sizeOf_lt_of_mem h
  have h2 : sizeOf (JVal.arr xs) = 1 + sizeOf xs := by simp
  omega

theorem sizeOf_mem_obj {k : String} {v : JVal} {kvs : List (String × JVal)}
    (h : (k, v) ∈ kvs) : sizeOf v < sizeOf (JVal.obj kvs) := by
  have h1 := List.sizeOf_lt_of_mem h
  have h2 : sizeOf (k, v) = 1 + sizeOf k + sizeOf v := rfl
  have h3 : sizeOf (JVal.obj kvs) = 1 + sizeOf kvs := by simp
  have h4 : 0 < sizeOf k := by
    cases k
    simp
  omega

theorem kp_refl : ∀ v : JVal, KeyPerm v v := by
  apply jval_strong_ind
  intro v ih
  cases v with
  | null => exact .null
  | bool b => exact .bool b
  | num n => exact .num n
  | str s => exact .str s
  | arr xs =>
    refine .arr ?_
    have : ∀ ys : List JVal, (∀ y ∈ ys, y ∈ xs) → KeyPermList ys ys := by
      intro ys
      induction ys with
      | nil => exact fun _ => .nil
      | cons y t iht =>
        intro hmem
        exact .cons (ih y (sizeOf_mem_arr (hmem y (by simp))))
          (iht (fun z hz => hmem z (by simp [hz])))
    exact this xs (fun _ hy => hy)
  | obj kvs =>
    refine .obj ?_ (List.Perm.refl _)
    have : ∀ ps : List (String × JVal), (∀ p ∈ ps, p ∈ kvs) → KeyPermPairs ps ps := by
      intro ps
      induction ps with
      | nil => exact fun _ => .nil
      | cons p t iht =>
        intro hmem
        obtain ⟨k, v⟩ := p
        exact .cons k (ih v (sizeOf_mem_obj (hmem (k, v) (by simp))))
          (iht (fun z hz => hmem z (by simp [hz])))
    exact this kvs (fun _ hy => hy)

theorem kpl_refl (xs : List JVal) : KeyPermList xs xs := by
  induction xs with
  | nil => exact .nil
  | cons x t ih => exact .cons (kp_refl x) ih

theorem kpp_keys : ∀ {a l : List (String × JVal)}, KeyPermPairs a l →
    a.map Prod.fst = l.map Prod.fst := by
  intro a
  induction a with
  | nil =>
    intro l h
    cases h
    rfl
  | cons p t ih =>
    intro l h
    cases h with
    | cons k hv hrest => simp [ih hrest]

theorem kpp_alookup_none : ∀ {a l : List (String × JVal)}, KeyPermPairs a l → ∀ (k : String),
    alookup a k = none → alookup l k = none := by
  intro a
  induction a with
  | nil =>
    intro l h k hn
    cases h
    rfl
  | cons p t ih =>
    intro l h k hn
    cases h with
    | cons k' hv hrest =>
      rw [alookup] at hn ⊢
      by_cases hk : k' = k
      · rw [if_pos hk] at hn
        cases hn
      · rw [if_neg hk] at hn ⊢
        exact ih hrest k hn

theorem kpp_alookup_some : ∀ {a l : List (String × JVal)}, KeyPermPairs a l → ∀ (k : String)
    {v : JVal}, alookup a k = some v →
    ∃ w, alookup l k = some w ∧ KeyPerm v w := by
  intro a
  induction a with
  | nil =>
    intro l h k v hs
    cases hs
  | cons p t ih =>
    intro l h k v hs
    cases h with
    | cons k' hv hrest =>
      rw [alookup] at hs ⊢
      by_cases hk : k' = k
      · rw [if_pos hk] at hs ⊢
        injection hs with hs
        subst hs
        exact ⟨_, rfl, hv⟩
      · rw [if_neg hk] at hs ⊢
        exact ih hrest k hs

theorem perm_alookup {β : Type} {l₁ l₂ : List (String × β)} (h : l₁.Perm l₂)
    (hnd : (l₁.map Prod.fst).Nodup) (k : String) : alookup l₁ k = alookup l₂ k := by
  induction h with
  | nil => rfl
  | cons x h ih =>
    obtain ⟨kx, vx⟩ := x
    rw [alookup, alookup]
    by_cases hk : kx = k
    · rw [if_pos hk, if_pos hk]
    · rw [if_neg hk, if_neg hk]
      refine ih ?_
      simp only [List.map_cons, List.nodup_cons] at hnd
      exact hnd.2
  | swap x y t =>
    obtain ⟨kx, vx⟩ := x
    obtain ⟨ky, vy⟩ := y
    have hxy : ¬ ky = kx := by
      simp only [List.map_cons, List.nodup_cons] at hnd
      exact fun hc => hnd.1 (by simp [hc])
    rw [alookup, alookup, alookup, alookup]
    by_cases hk : ky = k
    · rw [if_pos hk]
      rw [if_neg (fun hc : kx = k => hxy (hk.trans hc.symm)), if_pos hk]
    · rw [if_neg hk]
      by_cases hk2 : kx = k
      · rw [if_pos hk2, if_pos hk2]
      · rw [if_neg hk2, if_neg hk2, if_neg hk]
  | trans h1 h2 ih1 ih2 =>
    rw [ih1 hnd, ih2 ((h1.map Prod.fst).nodup_iff.mp hnd)]

theorem distinctKeys_nodup (l : List String) : distinctKeys l = true ↔ l.Nodup := by
  induction l with
  | nil => simp [distinctKeys]
  | cons k r ih =>
    rw [distinctKeys, List.nodup_cons, Bool.and_eq_true, Bool.not_eq_true', ← ih]
    constructor
    · rintro ⟨h1, h2⟩
      refine ⟨fun hm => ?_, h2⟩
      rw [← List.elem_iff] at hm
      rw [show List.contains r k = List.elem k r from rfl, hm] at h1
      cases h1
    · rintro ⟨h1, h2⟩
      refine ⟨?_, h2⟩
      rw [show List.contains r k = List.elem k r from rfl]
      rcases he : List.elem k r with _ | _
      · rfl
      · exact absurd (List.elem_iff.mp he) h1

theorem alookup_mem {β : Type} : ∀ {l : List (String × β)} {k : String} {v : β},
    alookup l k = some v → (k, v) ∈ l := by
  intro l
  induction l with
  | nil => intro k v h; cases h
  | cons p t ih =>
    intro k v h
    obtain ⟨k', w⟩ := p
    rw [alookup] at h
    by_cases hk : k' = k
    · rw [if_pos hk] at h
      injection h with h
      subst h hk
      exact List.mem_cons_self _ _
    · rw [if_neg hk] at h
      exact List.mem_cons_of_mem _ (ih h)

theorem kpp_dictPop : ∀ {a l : List (String × JVal)}, KeyPermPairs a l → ∀ (k : String),
    KeyPermPairs (dictPop a k) (dictPop l k) := by
  intro a
  induction a with
  | nil =>
    intro l h k
    cases h
    exact .nil
  | cons p t ih =>
    intro l h k
    cases h with
    | cons k' hv hrest =>
      by_cases hk : k' = k
      · simp only [dictPop, if_pos hk]
        exact ih hrest k
      · simp only [dictPop, if_neg hk]
        exact .cons k' hv (ih hrest k)

theorem perm_dictPop : ∀ {p q : List (String × JVal)}, p.Perm q → ∀ (k : String),
    (dictPop p k).Perm (dictPop q k) := by
  intro p q h
  induction h with
  | nil => intro k; exact .refl _
  | cons x h ih =>
    intro k
    obtain ⟨kx, vx⟩ := x
    by_cases hk : kx = k
    · simpa only [dictPop, if_pos hk] using ih k
    · simpa only [dictPop, if_neg hk] using (ih k).cons _
  | swap x y t =>
    intro k
    obtain ⟨kx, vx⟩ := x
    obtain ⟨ky, vy⟩ := y
    by_cases hx : kx = k <;> by_cases hy : ky = k <;>
      simp only [dictPop, if_pos, if_neg, hx, hy, if_true, if_false]
    · exact .refl _
    · exact .refl _
    · exact .refl _
    · exact .swap _ _ _
  | trans h1 h2 ih1 ih2 =>
    intro k
    exact (ih1 k).trans (ih2 k)

theorem kpp_stripEntries : ∀ {a l : List (String × JVal)}, KeyPermPairs a l →
    KeyPermPairs (stripEntries a) (stripEntries l) := by
  intro a
  induction a with
  | nil =>
    intro l h
    cases h
    exact .nil
  | cons p t ih =>
    intro l h
    cases h with
    | cons k' hv hrest =>
      by_cases hk : k' = "createdAtTimestamp" ∨ k' = "updatedAtTimestamp"
      · simp only [stripEntries, if_pos hk]
        exact ih hrest
      · simp only [stripEntries, if_neg hk]
        exact .cons k' hv (ih hrest)

theorem perm_stripEntries : ∀ {p q : List (String × JVal)}, p.Perm q →
    (stripEntries p).Perm (stripEntries q) := by
  intro p q h
  induction h with
  | nil => exact .refl _
  | cons x h ih =>
    obtain ⟨kx, vx⟩ := x
    by_cases hk : kx = "createdAtTimestamp" ∨ kx = "updatedAtTimestamp"
    · simpa only [stripEntries, if_pos hk] using ih
    · simpa only [stripEntries, if_neg hk] using ih.cons _
  | swap x y t =>
    obtain ⟨kx, vx⟩ := x
    obtain ⟨ky, vy⟩ := y
    by_cases hx : kx = "createdAtTimestamp" ∨ kx = "updatedAtTimestamp" <;>
      by_cases hy : ky = "createdAtTimestamp" ∨ ky = "updatedAtTimestamp" <;>
      simp only [stripEntries, if_pos, if_neg, hx, hy, if_true, if_false]
    · exact .refl _
    · exact .refl _
    · exact .refl _
    · exact .swap _ _ _
  | trans h1 h2 ih1 ih2 => exact ih1.trans ih2

theorem kpp_setKey : ∀ {a l : List (String × JVal)}, KeyPermPairs a l → ∀ (k : String)
    {v w : JVal}, KeyPerm v w → KeyPermPairs (setKey a k v) (setKey l k w) := by
  intro a
  induction a with
  | nil =>
    intro l h k v w hvw
    cases h
    exact .cons k hvw .nil
  | cons p t ih =>
    intro l h k v w hvw
    cases h with
    | cons k' hv hrest =>
      by_cases hk : k' = k
      · simp only [setKey, if_pos hk]
        exact .cons k hvw hrest
      · simp only [setKey, if_neg hk]
        exact .cons k' hv (ih hrest k hvw)

theorem perm_setKey : ∀ {p q : List (String × JVal)}, p.Perm q →
    (p.map Prod.fst).Nodup → ∀ (k : String) (v : JVal),
    (setKey p k v).Perm (setKey q k v) := by
  intro p q h
  induction h with
  | nil => intro _ k v; exact .refl _
  | cons x h ih =>
    intro hnd k v
    obtain ⟨kx, vx⟩ := x
    simp only [List.map_cons, List.nodup_cons] at hnd
    by_cases hk : kx = k
    · simp only [setKey, if_pos hk]
      exact h.cons _
    · simp only [setKey, if_neg hk]
      exact (ih hnd.2 k v).cons _
  | swap x y t =>
    intro hnd k v
    obtain ⟨kx, vx⟩ := x
    obtain ⟨ky, vy⟩ := y
    simp only [List.map_cons, List.nodup_cons, List.mem_cons] at hnd
    have hxy : ¬ ky = kx := fun hc => hnd.1 (Or.inl (by simp [hc]))
    by_cases hy : ky = k
    · have hx : ¬ kx = k := fun hc => hxy (hy.trans hc.symm)
      simp only [setKey, if_pos hy, if_neg hx]
      exact .swap _ _ _
    · by_cases hx : kx = k
      · simp only [setKey, if_pos hx, if_neg hy]
        exact .swap _ _ _
      · simp only [setKey, if_neg hx, if_neg hy]
        exact .swap _ _ _
  | trans h1 h2 ih1 ih2 =>
    intro hnd k v
    exact (ih1 hnd k v).trans (ih2 ((h1.map Prod.fst).nodup_iff.mp hnd) k v)

theorem dictPop_keys_sublist (l : List (String × JVal)) (k : String) :
    ((dictPop l k).map Prod.fst).Sublist (l.map Prod.fst) := by
  induction l with
  | nil => simp [dictPop]
  | cons p t ih =>
    obtain ⟨k', v⟩ := p
    by_cases hk : k' = k
    · simp only [dictPop, if_pos hk, List.map_cons]
      exact ih.cons _
    · simp only [dictPop, if_neg hk, List.map_cons]
      exact ih.cons₂ _

theorem wfj_obj_parts {kvs : List (String × JVal)} (h : wfj (.obj kvs) = true) :
    (kvs.map Prod.fst).Nodup ∧ wfjPairs kvs = true := by
  rw [wfj, Bool.and_eq_true] at h
  exact ⟨(distinctKeys_nodup _).mp h.1, h.2⟩

theorem wfjPairs_mem : ∀ {kvs : List (String × JVal)}, wfjPairs kvs = true →
    ∀ {k : String} {v : JVal}, (k, v) ∈ kvs → wfj v = true := by
  intro kvs
  induction kvs with
  | nil => intro _ k v h; cases h
  | cons p t ih =>
    intro h k v hm
    obtain ⟨k', w⟩ := p
    rw [wfjPairs, Bool.and_eq_true] at h
    rcases List.mem_cons.mp hm with he | ht
    · injection he with h1 h2
      subst h2
      exact h.1
    · exact ih h.2 ht

theorem wfjList_mem : ∀ {xs : List JVal}, wfjList xs = true →
    ∀ {x : JVal}, x ∈ xs → wfj x = true := by
  intro xs
  induction xs with
  | nil => intro _ x h; cases h
  | cons y t ih =>
    intro h x hm
    rw [wfjList, Bool.and_eq_true] at h
    rcases List.mem_cons.mp hm with he | ht
    · subst he
      exact h.1
    · exact ih h.2 ht

theorem pyEqB_str_iff (x : JVal) (s : String) : pyEqB x (.str s) = true ↔ x = .str s := by
  cases x <;> simp [pyEqB, canon, jeqb]

theorem kp_str_iff {x y : JVal} (s : String) (h : KeyPerm x y) :
    (x = .str s ↔ y = .str s) := by
  cases h <;> simp

theorem dumpsEntries_eq_map (l : List (String × JVal)) :
    dumpsEntries l = l.map (fun p => (p.1, dumps p.2)) := by
  induction l with
  | nil => rfl
  | cons p t ih =>
    obtain ⟨k, v⟩ := p
    simp [dumpsEntries, ih]

theorem dumpsEntries_keys (l : List (String × JVal)) :
    (dumpsEntries l).map Prod.fst = l.map Prod.fst := by
  rw [dumpsEntries_eq_map, List.map_map]
  rfl

theorem insertionSort_perm_eq {l₁ l₂ : List String} (h : l₁.Perm l₂) :
    List.insertionSort (fun a b : String => a ≤ b) l₁
      = List.insertionSort (fun a b : String => a ≤ b) l₂ :=
  List.eq_of_perm_of_sorted
    ((List.perm_insertionSort _ l₁).trans (h.trans (List.perm_insertionSort _ l₂).symm))
    (List.sorted_insertionSort _ l₁) (List.sorted_insertionSort _ l₂)

theorem dumps_kp_bounded : ∀ (N : Nat), ∀ {a b : JVal}, sizeOf a ≤ N → wfj a = true →
    KeyPerm a b → dumps a = dumps b := by
  intro N
  induction N with
  | zero =>
    intro a b hsz _ _
    exfalso
    have : 0 < sizeOf a := by cases a <;> simp
    omega
  | succ N ih =>
    intro a b hsz hwf hkp
    cases hkp with
    | null => rfl
    | bool c => rfl
    | num n => rfl
    | str s => rfl
    | @arr xs ys hl =>
      have key : ∀ (xs' ys' : List JVal), KeyPermList xs' ys' →
          (∀ x ∈ xs', sizeOf x ≤ N ∧ wfj x = true) → dumpsList xs' = dumpsList ys' := by
        intro xs'
        induction xs' with
        | nil =>
          intro ys' h _
          cases h
          rfl
        | cons x t iht =>
          intro ys' h hmem
          cases h with
          | cons hxy hrest =>
            obtain ⟨hx1, hx2⟩ := hmem x (by simp)
            rw [dumpsList, dumpsList, ih hx1 hx2 hxy,
              iht _ hrest (fun z hz => hmem z (by simp [hz]))]
      have hmem : ∀ x ∈ xs, sizeOf x ≤ N ∧ wfj x = true := by
        intro x hx
        have h1 := sizeOf_mem_arr hx
        exact ⟨by omega, wfjList_mem (by simpa [wfj] using hwf) hx⟩
      simp only [dumps]
      rw [key xs ys hl hmem]
    | @obj kvs l kvsb hp hperm =>
      obtain ⟨hnd, hpairs⟩ := wfj_obj_parts hwf
      have hkeys := kpp_keys hp
      have key : ∀ (ps qs : List (String × JVal)), KeyPermPairs ps qs →
          (∀ p ∈ ps, sizeOf p.2 ≤ N ∧ wfj p.2 = true) → dumpsEntries ps = dumpsEntries qs := by
        intro ps
        induction ps with
        | nil =>
          intro qs h _
          cases h
          rfl
        | cons p t iht =>
          intro qs h hmem
          obtain ⟨k0, v0⟩ := p
          cases h with
          | cons _ hv hrest =>
            obtain ⟨hx1, hx2⟩ := hmem (k0, v0) (by simp)
            rw [dumpsEntries, dumpsEntries, ih hx1 hx2 hv,
              iht _ hrest (fun z hz => hmem z (by simp [hz]))]
      have hmem : ∀ p ∈ kvs, sizeOf p.2 ≤ N ∧ wfj p.2 = true := by
        intro p hp2
        obtain ⟨k, v⟩ := p
        have h1 := sizeOf_mem_obj hp2
        refine ⟨?_, wfjPairs_mem hpairs hp2⟩
        show sizeOf v ≤ N
        omega
      have hDE : dumpsEntries kvs = dumpsEntries l := key kvs l hp hmem
      have hDEperm : (dumpsEntries l).Perm (dumpsEntries kvsb) := by
        rw [dumpsEntries_eq_map, dumpsEntries_eq_map]
        exact hperm.map _
      have hndl : ((dumpsEntries l).map Prod.fst).Nodup := by
        rw [dumpsEntries_keys, ← hkeys]
        exact hnd
      have hlook : ∀ k, alookup (dumpsEntries kvs) k = alookup (dumpsEntries kvsb) k := by
        intro k
        rw [hDE]
        exact perm_alookup hDEperm hndl k
      have hsorted : List.insertionSort (fun a b : String => a ≤ b) (kvs.map Prod.fst)
          = List.insertionSort (fun a b : String => a ≤ b) (kvsb.map Prod.fst) := by
        apply insertionSort_perm_eq
        rw [hkeys]
        exact hperm.map _
      simp only [dumps]
      rw [hsorted]
      have hmc : List.map (fun k => jstr k ++ ": " ++ (alookup (dumpsEntries kvs) k).getD "null")
          (List.insertionSort (fun a b : String => a ≤ b) (kvsb.map Prod.fst))
          = List.map (fun k => jstr k ++ ": " ++ (alookup (dumpsEntries kvsb) k).getD "null")
            (List.insertionSort (fun a b : String => a ≤ b) (kvsb.map Prod.fst)) :=
        List.map_congr_left (fun k _ => by rw [hlook k])
      rw [hmc]

theorem mapM_filter_kp : ∀ {xs ys evs0 : List JVal}, KeyPermList xs ys →
    List.Forall₂ (fun a b => filterEvent a = .ok b) xs evs0 →
    ∃ evs0b, List.Forall₂ (fun a b => filterEvent a = .ok b) ys evs0b ∧
      KeyPermList evs0 evs0b := by
  intro xs
  induction xs with
  | nil =>
    intro ys evs0 hl hf
    cases hl
    cases hf
    exact ⟨[], .nil, .nil⟩
  | cons x t ih =>
    intro ys evs0 hl hf
    cases hl with
    | cons hxy hrest =>
      cases hf with
      | @cons _ b _ bs hfx hfrest =>
        cases hxy with
        | null => exact Except.noConfusion hfx
        | bool c => exact Except.noConfusion hfx
        | num n => exact Except.noConfusion hfx
        | str s => exact Except.noConfusion hfx
        | arr hl2 => exact Except.noConfusion hfx
        | @obj ekv l3 ekvb hp3 hperm3 =>
          have hb : b = .obj (stripEntries ekv) := by
            injection hfx with hfx
            exact hfx.symm
          obtain ⟨cs, hbs, hkpl⟩ := ih hrest hfrest
          subst hb
          exact ⟨.obj (stripEntries ekvb) :: cs, .cons rfl hbs,
            .cons (.obj (kpp_stripEntries hp3) (perm_stripEntries hperm3)) hkpl⟩

theorem iter_filter_kp : ∀ {ev ev2 : JVal}, KeyPerm ev ev2 → ∀ {items evs0 : List JVal},
    pyIterItems ev = .ok items → items.mapM filterEvent = .ok evs0 →
    ∃ items2 evs0b, pyIterItems ev2 = .ok items2 ∧ items2.mapM filterEvent = .ok evs0b ∧
      KeyPermList evs0 evs0b := by
  intro ev ev2 hkp items evs0 hii hm
  cases hkp with
  | null => exact Except.noConfusion hii
  | bool c => exact Except.noConfusion hii
  | num n => exact Except.noConfusion hii
  | str s =>
    exact ⟨items, evs0, hii, hm, kpl_refl _⟩
  | @arr xs ys hl =>
    injection hii with hii
    subst hii
    obtain ⟨evs0b, hf, hkpl⟩ := mapM_filter_kp hl ((mapM_ok_iff _ _ _).mp hm)
    exact ⟨ys, evs0b, rfl, (mapM_ok_iff _ _ _).mpr hf, hkpl⟩
  | @obj p l3 q hp3 hperm3 =>
    injection hii with hii
    subst hii
    cases p with
    | nil =>
      cases hp3
      have hq : q = [] := (List.Perm.eq_nil hperm3.symm)
      subst hq
      have : evs0 = [] := by
        have := (mapM_ok_iff _ _ _).mp hm
        cases this
        rfl
      subst this
      exact ⟨[], [], rfl, rfl, .nil⟩
    | cons ph pt =>
      exfalso
      have := (mapM_ok_iff _ _ _).mp hm
      cases this with
      | cons hfx _ => exact Except.noConfusion hfx

theorem filter_keyPerm : ∀ {a b a' : JVal}, wfj a = true → KeyPerm a b →
    filter_relevant_data a = .ok a' →
    ∃ b', filter_relevant_data b = .ok b' ∧ KeyPerm a' b' := by
  intro a b a' hwf hkp hok
  cases hkp with
  | null => exact Except.noConfusion hok
  | bool c => exact Except.noConfusion hok
  | num n => exact Except.noConfusion hok
  | str s => exact ⟨a', hok, kp_refl a'⟩
  | @arr xs ys hl =>
    have hany : ys.any (fun x => pyEqB x (.str "data"))
        = xs.any (fun x => pyEqB x (.str "data")) := by
      have key : ∀ (xs' ys' : List JVal), KeyPermList xs' ys' →
          ys'.any (fun x => pyEqB x (.str "data")) = xs'.any (fun x => pyEqB x (.str "data")) := by
        intro xs'
        induction xs' with
        | nil =>
          intro ys' h
          cases h
          rfl
        | cons x t iht =>
          intro ys' h
          cases h with
          | @cons _ y _ ys2 hxy hrest =>
            have hiff := (pyEqB_str_iff x "data").trans
              ((kp_str_iff "data" hxy).trans (pyEqB_str_iff y "data").symm)
            simp only [List.any_cons]
            rw [iht _ hrest]
            rcases hx : pyEqB x (.str "data") with _ | _ <;>
              rcases hy : pyEqB y (.str "data") with _ | _
            · rfl
            · rw [hx, hy] at hiff
              simp at hiff
            · rw [hx, hy] at hiff
              simp at hiff
            · rfl
      exact key xs ys hl
    unfold filter_relevant_data at hok ⊢
    simp only [pyContains] at hok ⊢
    rcases hc : xs.any (fun x => pyEqB x (.str "data")) with _ | _
    · simp only [hc] at hok
      cases hok
      refine ⟨.arr ys, ?_, .arr hl⟩
      simp only [hany, hc]
    · simp only [hc, pyIndex] at hok
      exact Except.noConfusion hok
  | @obj kvs l kvsb hp hperm =>
    obtain ⟨hnd, hpairs⟩ := wfj_obj_parts hwf
    have hkeys := kpp_keys hp
    have hndl : (l.map Prod.fst).Nodup := hkeys ▸ hnd
    unfold filter_relevant_data at hok ⊢
    simp only [pyContains, pyIndex] at hok ⊢
    rcases hd : alookup kvs "data" with _ | d
    · simp only [hd, Option.isSome_none, Bool.false_eq_true] at hok
      cases hok
      have hdl : alookup l "data" = none := kpp_alookup_none hp _ hd
      have hdb : alookup kvsb "data" = none := by
        rw [← perm_alookup hperm hndl "data"]
        exact hdl
      refine ⟨.obj kvsb, ?_, .obj hp hperm⟩
      simp only [hdb, Option.isSome_none, Bool.false_eq_true]
    · simp only [hd, Option.isSome_some, if_true] at hok
      obtain ⟨w, hdl, hkpd⟩ := kpp_alookup_some hp "data" hd
      have hdb : alookup kvsb "data" = some w := by
        rw [← perm_alookup hperm hndl "data"]
        exact hdl
      cases hkpd with
      | null => exact Except.noConfusion hok
      | bool c => exact Except.noConfusion hok
      | num n => exact Except.noConfusion hok
      | str s => exact Except.noConfusion hok
      | arr hl2 => exact Except.noConfusion hok
      | @obj dkvs l2 dkvsb hp2 hperm2 =>
        have hwfd : wfj (.obj dkvs) = true := wfjPairs_mem hpairs (alookup_mem hd)
        obtain ⟨hndd, hpairsd⟩ := wfj_obj_parts hwfd
        have hkeys2 := kpp_keys hp2
        have hp2' : KeyPermPairs
            (dictPop (dictPop dkvs "updatedAtTimestamp") "createdAtTimestamp")
            (dictPop (dictPop l2 "updatedAtTimestamp") "createdAtTimestamp") :=
          kpp_dictPop (kpp_dictPop hp2 _) _
        have hperm2' : (dictPop (dictPop l2 "updatedAtTimestamp") "createdAtTimestamp").Perm
            (dictPop (dictPop dkvsb "updatedAtTimestamp") "createdAtTimestamp") :=
          perm_dictPop (perm_dictPop hperm2 _) _
        have hnd2 : (((dictPop (dictPop l2 "updatedAtTimestamp") "createdAtTimestamp")).map
            Prod.fst).Nodup := by
          refine List.Nodup.sublist ((dictPop_keys_sublist _ _).trans (dictPop_keys_sublist _ _)) ?_
          rw [← hkeys2]
          exact hndd
        rcases hev : alookup (dictPop (dictPop dkvs "updatedAtTimestamp") "createdAtTimestamp")
            "events" with _ | ev
        · simp only [hev] at hok
          cases hok
          have hevl := kpp_alookup_none hp2' _ hev
          have hevb : alookup (dictPop (dictPop dkvsb "updatedAtTimestamp") "createdAtTimestamp")
              "events" = none := by
            rw [← perm_alookup hperm2' hnd2 "events"]
            exact hevl
          refine ⟨.obj [("data", .obj (dictPop (dictPop dkvsb "updatedAtTimestamp")
              "createdAtTimestamp"))], ?_, ?_⟩
          · simp only [hdb, Option.isSome_some, if_true, hevb]
          · exact .obj (.cons "data" (.obj hp2' hperm2') .nil) (List.Perm.refl _)
        · simp only [hev] at hok
          rcases hii : pyIterItems ev with e | items
          · simp only [hii] at hok
            exact Except.noConfusion hok
          · simp only [hii] at hok
            rcases hm : items.mapM filterEvent with e | evs0
            · simp only [hm] at hok
              exact Except.noConfusion hok
            · simp only [hm] at hok
              cases hok
              obtain ⟨ev2, hevl, hkpev⟩ := kpp_alookup_some hp2' "events" hev
              have hevb : alookup (dictPop (dictPop dkvsb "updatedAtTimestamp")
                  "createdAtTimestamp") "events" = some ev2 := by
                rw [← perm_alookup hperm2' hnd2 "events"]
                exact hevl
              obtain ⟨items2, evs0b, hii2, hm2, hkpl⟩ := iter_filter_kp hkpev hii hm
              refine ⟨.obj [("data", .obj (setKey (dictPop (dictPop dkvsb
                  "updatedAtTimestamp") "createdAtTimestamp") "events" (.arr evs0b)))],
                  ?_, ?_⟩
              · simp only [hdb, Option.isSome_some, if_true, hevb, hii2, hm2]
              · refine .obj (.cons "data" ?_ .nil) (List.Perm.refl _)
                exact .obj (kpp_setKey hp2' "events" (.arr hkpl))
                  (perm_setKey hperm2' hnd2 "events" (.arr evs0b))

theorem wfjPairs_dictPop : ∀ {l : List (String × JVal)}, wfjPairs l = true → ∀ (k : String),
    wfjPairs (dictPop l k) = true := by
  intro l
  induction l with
  | nil => intro _ k; rfl
  | cons p t ih =>
    intro h k
    obtain ⟨k', v⟩ := p
    rw [wfjPairs, Bool.and_eq_true] at h
    by_cases hk : k' = k
    · simp only [dictPop, if_pos hk]
      exact ih h.2 k
    · simp only [dictPop, if_neg hk, wfjPairs, Bool.and_eq_true]
      exact ⟨h.1, ih h.2 k⟩

theorem stripEntries_keys_sublist (l : List (String × JVal)) :
    ((stripEntries l).map Prod.fst).Sublist (l.map Prod.fst) := by
  induction l with
  | nil => simp [stripEntries]
  | cons p t ih =>
    obtain ⟨k, v⟩ := p
    by_cases hk : k = "createdAtTimestamp" ∨ k = "updatedAtTimestamp"
    · simp only [stripEntries, if_pos hk, List.map_cons]
      exact ih.cons _
    · simp only [stripEntries, if_neg hk, List.map_cons]
      exact ih.cons₂ _

theorem wfjPairs_stripEntries : ∀ {l : List (String × JVal)}, wfjPairs l = true →
    wfjPairs (stripEntries l) = true := by
  intro l
  induction l with
  | nil => intro _; rfl
  | cons p t ih =>
    intro h
    obtain ⟨k, v⟩ := p
    rw [wfjPairs, Bool.and_eq_true] at h
    by_cases hk : k = "createdAtTimestamp" ∨ k = "updatedAtTimestamp"
    · simp only [stripEntries, if_pos hk]
      exact ih h.2
    · simp only [stripEntries, if_neg hk, wfjPairs, Bool.and_eq_true]
      exact ⟨h.1, ih h.2⟩

theorem setKey_keys_of_mem : ∀ {l : List (String × JVal)} {k : String},
    (alookup l k).isSome = true → ∀ (w : JVal), (setKey l k w).map Prod.fst = l.map Prod.fst := by
  intro l
  induction l with
  | nil =>
    intro k h w
    cases h
  | cons p t ih =>
    intro k h w
    obtain ⟨k', u⟩ := p
    by_cases hk : k' = k
    · subst hk
      simp [setKey]
    · rw [alookup, if_neg hk] at h
      simp only [setKey, if_neg hk, List.map_cons]
      rw [ih h w]

theorem wfjPairs_setKey : ∀ {l : List (String × JVal)}, wfjPairs l = true → ∀ (k : String)
    {v : JVal}, wfj v = true → wfjPairs (setKey l k v) = true := by
  intro l
  induction l with
  | nil =>
    intro _ k v hv
    simp [setKey, wfjPairs, hv]
  | cons p t ih =>
    intro h k v hv
    obtain ⟨k', u⟩ := p
    rw [wfjPairs, Bool.and_eq_true] at h
    by_cases hk : k' = k
    · simp only [setKey, if_pos hk, wfjPairs, Bool.and_eq_true]
      exact ⟨hv, h.2⟩
    · simp only [setKey, if_neg hk, wfjPairs, Bool.and_eq_true]
      exact ⟨h.1, ih h.2 k hv⟩

theorem wfjList_of_forall : ∀ {l : List JVal}, (∀ x ∈ l, wfj x = true) → wfjList l = true := by
  intro l
  induction l with
  | nil => intro _; rfl
  | cons x t ih =>
    intro h
    rw [wfjList, Bool.and_eq_true]
    exact ⟨h x (by simp), ih (fun z hz => h z (by simp [hz]))⟩

theorem wfj_filterEvent {x y : JVal} (hwf : wfj x = true) (h : filterEvent x = .ok y) :
    wfj y = true := by
  cases x with
  | obj ekv =>
    injection h with h
    subst h
    obtain ⟨hnd, hpairs⟩ := wfj_obj_parts hwf
    rw [wfj, Bool.and_eq_true]
    exact ⟨(distinctKeys_nodup _).mpr ((stripEntries_keys_sublist _).nodup hnd),
      wfjPairs_stripEntries hpairs⟩
  | null => exact Except.noConfusion h
  | bool c => exact Except.noConfusion h
  | num n => exact Except.noConfusion h
  | str s => exact Except.noConfusion h
  | arr xs => exact Except.noConfusion h

theorem wfjList_mapM_filterEvent : ∀ {items evs0 : List JVal}, wfjList items = true →
    items.mapM filterEvent = .ok evs0 → wfjList evs0 = true := by
  intro items
  induction items with
  | nil =>
    intro evs0 _ hm
    have := (mapM_ok_iff _ _ _).mp hm
    cases this
    rfl
  | cons x t ih =>
    intro evs0 hwf hm
    have := (mapM_ok_iff _ _ _).mp hm
    cases this with
    | @cons _ b _ bs hfx hfrest =>
      rw [wfjList, Bool.and_eq_true] at hwf
      rw [wfjList, Bool.and_eq_true]
      exact ⟨wfj_filterEvent hwf.1 hfx, ih hwf.2 ((mapM_ok_iff _ _ _).mpr hfrest)⟩

theorem wfjList_iterItems {ev : JVal} {items : List JVal} (hwf : wfj ev = true)
    (h : pyIterItems ev = .ok items) : wfjList items = true := by
  cases ev with
  | arr xs =>
    injection h with h
    subst h
    exact hwf
  | str s =>
    injection h with h
    subst h
    exact wfjList_of_forall (by
      intro x hx
      obtain ⟨c, _, hc⟩ := List.mem_map.mp hx
      subst hc
      rfl)
  | obj kvs =>
    injection h with h
    subst h
    exact wfjList_of_forall (by
      intro x hx
      obtain ⟨c, _, hc⟩ := List.mem_map.mp hx
      subst hc
      rfl)
  | null => exact Except.noConfusion h
  | bool c => exact Except.noConfusion h
  | num n => exact Except.noConfusion h

theorem filter_wf : ∀ {x y : JVal}, wfj x = true → filter_relevant_data x = .ok y →
    wfj y = true := by
  intro x y hwf hok
  unfold filter_relevant_data at hok
  rcases hc : pyContains x "data" with e | b
  · rw [hc] at hok
    exact Except.noConfusion hok
  · rw [hc] at hok
    cases b with
    | false =>
      cases hok
      exact hwf
    | true =>
      rcases hpi : pyIndex x "data" with e | dv
      · simp only [hpi] at hok
        exact Except.noConfusion hok
      · simp only [hpi] at hok
        cases dv with
        | null => exact Except.noConfusion hok
        | bool c => exact Except.noConfusion hok
        | num n => exact Except.noConfusion hok
        | str s => exact Except.noConfusion hok
        | arr c => exact Except.noConfusion hok
        | obj dkvs =>
          have hwfd : wfj (.obj dkvs) = true := by
            cases x with
            | obj kvs =>
              rcases hdd : alookup kvs "data" with _ | d
              · rw [pyIndex, hdd] at hpi
                exact Except.noConfusion hpi
              · rw [pyIndex, hdd] at hpi
                injection hpi with hpi
                subst hpi
                exact wfjPairs_mem (wfj_obj_parts hwf).2 (alookup_mem hdd)
            | null => exact Except.noConfusion hpi
            | bool c => exact Except.noConfusion hpi
            | num n => exact Except.noConfusion hpi
            | str s => exact Except.noConfusion hpi
            | arr c => exact Except.noConfusion hpi
          obtain ⟨hndd, hpairsd⟩ := wfj_obj_parts hwfd
          have hndcd : ((dictPop (dictPop dkvs "updatedAtTimestamp")
              "createdAtTimestamp").map Prod.fst).Nodup :=
            ((dictPop_keys_sublist _ _).trans (dictPop_keys_sublist _ _)).nodup hndd
          have hpcd : wfjPairs (dictPop (dictPop dkvs "updatedAtTimestamp")
              "createdAtTimestamp") = true := wfjPairs_dictPop (wfjPairs_dictPop hpairsd _) _
          rcases hev : alookup (dictPop (dictPop dkvs "updatedAtTimestamp")
              "createdAtTimestamp") "events" with _ | ev
          · simp only [hev] at hok
            cases hok
            have hin : wfj (.obj (dictPop (dictPop dkvs "updatedAtTimestamp")
                "createdAtTimestamp")) = true := by
              rw [wfj, Bool.and_eq_true]
              exact ⟨(distinctKeys_nodup _).mpr hndcd, hpcd⟩
            rw [wfj, Bool.and_eq_true]
            refine ⟨rfl, ?_⟩
            rw [wfjPairs, Bool.and_eq_true]
            exact ⟨hin, rfl⟩
          · simp only [hev] at hok
            rcases hii : pyIterItems ev with e | items
            · simp only [hii] at hok
              exact Except.noConfusion hok
            · simp only [hii] at hok
              rcases hm : items.mapM filterEvent with e | evs0
              · simp only [hm] at hok
                exact Except.noConfusion hok
              · simp only [hm] at hok
                cases hok
                have hwfev : wfj ev = true :=
                  wfjPairs_mem hpcd (alookup_mem hev)
                have hwfevs : wfjList evs0 = true :=
                  wfjList_mapM_filterEvent (wfjList_iterItems hwfev hii) hm
                have hin : wfj (.obj (setKey (dictPop (dictPop dkvs "updatedAtTimestamp")
                    "createdAtTimestamp") "events" (.arr evs0))) = true := by
                  rw [wfj, Bool.and_eq_true]
                  constructor
                  · rw [setKey_keys_of_mem (by rw [hev]; rfl) (JVal.arr evs0)]
                    exact (distinctKeys_nodup _).mpr hndcd
                  · exact wfjPairs_setKey hpcd "events" (by
                      rw [wfj]
                      exact hwfevs)
                rw [wfj, Bool.and_eq_true]
                refine ⟨rfl, ?_⟩
                rw [wfjPairs, Bool.and_eq_true]
                exact ⟨hin, rfl⟩

theorem hexByte_length (b : Nat) : (hexByte b).length = 2 := rfl

theorem md5hex_length (msg : List Nat) : (md5hex msg).length = 32 := by
  unfold md5hex leBytes4
  simp [String.join, String.length_append, hexByte_length]

/-- Claim C5: two well-formed raw records that differ only in the
ordering of dict entries (at any depth) normalize and fingerprint
identically whenever normalization succeeds: their digests are equal,
and the digest is a fixed-width 32-character hex string. -/
theorem c5_hash_key_reorder (a b a' : JVal) (hwf : wfj a = true) (hkp : KeyPerm a b)
    (hok : filter_relevant_data a = .ok a') :
    calculate_hash a = calculate_hash b ∧
      ∃ dg, calculate_hash a = .ok dg ∧ dg.length = 32 := by
  obtain ⟨b', hokb, hkp'⟩ := filter_keyPerm hwf hkp hok
  have hwfa' := filter_wf hwf hok
  have hd : dumps a' = dumps b' := dumps_kp_bounded (sizeOf a') (le_refl _) hwfa' hkp'
  refine ⟨?_, ⟨md5hex (utf8Bytes (dumps a')), ?_, md5hex_length _⟩⟩
  · unfold calculate_hash
    rw [hok, hokb]
    simp only [Except.map]
    rw [hd]
  · unfold calculate_hash
    rw [hok]
    simp only [Except.map]

theorem c5_hash_key_reorder_witness :
    calculate_hash (.obj [("data", .obj [("zz", .num 1), ("aa", .str "s")])])
      = calculate_hash (.obj [("data", .obj [("aa", .str "s"), ("zz", .num 1)])]) ∧
    ∃ dg, calculate_hash (.obj [("data", .obj [("zz", .num 1), ("aa", .str "s")])])
      = .ok dg ∧ dg.length = 32 :=
  c5_hash_key_reorder
    (.obj [("data", .obj [("zz", .num 1), ("aa", .str "s")])])
    (.obj [("data", .obj [("aa", .str "s"), ("zz", .num 1)])])
    (.obj [("data", .obj [("zz", .num 1), ("aa", .str "s")])])
    rfl
    (KeyPerm.obj
      (KeyPermPairs.cons "data"
        (KeyPerm.obj
          (KeyPermPairs.cons "zz" (kp_refl _)
            (KeyPermPairs.cons "aa" (kp_refl _) KeyPermPairs.nil))
          (List.Perm.swap ("aa", JVal.str "s") ("zz", JVal.num 1) []))
        KeyPermPairs.nil)
      (List.Perm.refl _))
    rfl
